import Mathlib

/-!
# Verification of the core of a user-space TCP/IP network stack

Shallow embedding, in Lean 4, of the core data structures and algorithms of
the stack (`src/stack/`): the one's-complement checksum and sequence-number
arithmetic from `util.rs`, the timer-id allocator from `timer.rs`, the
fragment-pooled `NetBuffer` from `buf.rs`, and the TCP reassembler, ACK
processing, retransmission and socket demultiplexing from `tcp.rs`.

Machine integers (`u32`, `u16`, `usize`) are embedded as `Nat` with explicit
`% 2^w` reduction where the source relies on wrapping behaviour; fallible
operations (Rust `assert!`/panic paths) return `Option`.
-/

namespace NetStack

/-! ## Sequence-number arithmetic (`util.rs`)

`seq_gt(val1, val2)` computes `val1.wrapping_sub(val2)` on `u32` and tests
`diff < 0x80000000 && diff != 0`.  `u32` values are embedded as naturals
below `2^32`; wrapping subtraction is `(a + 2^32 - b % 2^32) % 2^32`.
-/

def U32MOD : Nat := 4294967296

/-- `u32::wrapping_sub` on naturals already reduced mod `2^32`. -/
def wsub32 (a b : Nat) : Nat :=
  (a % U32MOD + U32MOD - b % U32MOD) % U32MOD

/-- `util::seq_gt`: true iff `(val1 - val2) mod 2^32` lies in `(0, 2^31)`. -/
def seq_gt (val1 val2 : Nat) : Bool :=
  let diff := wsub32 val1 val2
  decide (diff < 2147483648) && decide (diff ≠ 0)

/-- `util::seq_lt`, defined from `seq_gt` as in the source. -/
def seq_lt (val1 val2 : Nat) : Bool :=
  seq_gt val2 val1

/-- `util::seq_le`, defined from `seq_gt` as in the source. -/
def seq_le (val1 val2 : Nat) : Bool :=
  !(seq_gt val1 val2)

/-- `util::seq_ge`, defined from `seq_gt` as in the source. -/
def seq_ge (val1 val2 : Nat) : Bool :=
  !(seq_gt val2 val1)

/-- `util::wrapping_max`. -/
def wrapping_max (val1 val2 : Nat) : Nat :=
  if seq_gt val1 val2 then val1 else val2

/-! ## One's-complement checksum (`util.rs`)

`compute_ones_comp(in_checksum, slice)` walks the slice two bytes at a time
with `while i < slice.len() - 1`.  On an empty slice `slice.len() - 1`
underflows `usize`, so the call panics (debug: overflow panic; release: the
wrapped bound makes `slice[0]` go out of bounds).  The embedding therefore
returns `Option`, with `none` exactly on the empty slice.  The `u32`
accumulator is reduced mod `2^32` at each addition.
-/

/-- The big-endian 16-bit accumulation loop of `compute_ones_comp`:
pairs `[a, b]` contribute `a*256 + b`; a trailing odd byte contributes
`a*256` (`(slice[i] as u32) << 8`).  Accumulates into a `u32`. -/
def accumBe16 (checksum : Nat) : List Nat → Nat
  | a :: b :: rest => accumBe16 ((checksum + (a * 256 + b)) % U32MOD) rest
  | [a] => (checksum + a * 256) % U32MOD
  | [] => checksum

/-- The final carry-fold loop of `compute_ones_comp`:
`while checksum > 0xffff { checksum = (checksum & 0xffff) + (checksum >> 16) }`. -/
def onesCompFold (checksum : Nat) : Nat :=
  if h : checksum > 65535 then
    onesCompFold (checksum % 65536 + checksum / 65536)
  else
    checksum
termination_by checksum
decreasing_by
  have h16 : 1 ≤ checksum / 65536 := (Nat.one_le_div_iff (by norm_num)).2 (by omega)
  have := Nat.div_add_mod checksum 65536
  omega

/-- `util::compute_ones_comp`.  `none` when the slice is empty (the source
panics there); otherwise the one's-complement sum as a `u16`. -/
def compute_ones_comp (in_checksum : Nat) (slice : List Nat) : Option Nat :=
  match slice with
  | [] => none
  | _ :: _ => some (onesCompFold (accumBe16 (in_checksum % 65536) slice))

/-- `util::compute_checksum`: `0xffff ^ compute_ones_comp(0, slice)`. -/
def compute_checksum (slice : List Nat) : Option Nat :=
  (compute_ones_comp 0 slice).map (fun c => 65535 ^^^ c)

/-! ## Timer-id allocation (`timer.rs`)

`set_timer` draws `NEXT_TIMER_ID.fetch_add(1)` (an `AtomicU32` starting at
`1`, wrapping) and returns `(value & 0x7fffffff) as i32`.  The id handed to
the `n`-th call (0-based) is therefore `((1 + n) mod 2^32) & 0x7fffffff`,
i.e. `(1 + n) mod 2^31`, as an `i32` (always non-negative).
-/

/-- The id returned by the `n`-th call (0-based) to `timer::set_timer`. -/
def set_timer_id (n : Nat) : Int :=
  (((1 + n) % U32MOD) % 2147483648 : Nat)

/-! ## Ephemeral-port allocation (`tcp.rs`)

`find_ephemeral_port` loops drawing `rand::random::<u16>()` and forming
`EPHEMERAL_PORT_BASE + (r % RANGE)` with `RANGE = 0xffff - 49152 = 16383`,
returning the first port whose key `(remote_ip, remote_port, port)` is not
in the TCP port map.
-/

/-- `util::IPAddr`: a v4 or v6 address (octet lists). -/
inductive IPAddr where
  | v4 (addr : List Nat) : IPAddr
  | v6 (addr : List Nat) : IPAddr
deriving DecidableEq, Repr

/-- `IPAddr::new()`: the unspecified v4 address, used as the listener key. -/
def IPAddr.unspecified : IPAddr := IPAddr.v4 [0, 0, 0, 0]

/-- Socket key in the TCP port map: `(remote_ip, remote_port, local_port)`. -/
abbrev SocketKey := IPAddr × Nat × Nat

def EPHEMERAL_PORT_BASE : Nat := 49152

/-- The port produced from one random `u16` draw `r`:
`EPHEMERAL_PORT_BASE + (r % RANGE)` with `RANGE = 0xffff - 49152`. -/
def ephemeral_port_of_draw (r : Nat) : Nat :=
  EPHEMERAL_PORT_BASE + (r % 65536) % 16383

/-- `tcp::find_ephemeral_port`, with the stream of random `u16` draws made
explicit: returns the first drawn port that does not collide with an
existing key in the port map (`none` if the finite draw list is exhausted;
the source loops forever instead). -/
def find_ephemeral_port (portMap : List SocketKey) (remote_ip : IPAddr)
    (remote_port : Nat) : List Nat → Option Nat
  | [] => none
  | r :: rest =>
    let port := ephemeral_port_of_draw r
    if (remote_ip, remote_port, port) ∈ portMap then
      find_ephemeral_port portMap remote_ip remote_port rest
    else
      some port

/-! ## NetBuffer (`buf.rs`)

A `NetBuffer` is a chain of 512-octet fragments, each exposing a live
window `[start, end)` into its array, plus a cached total length.  The
chain is embedded as a `List` (head fragment first); the `range.end` field
is called `stop` here because `end` is reserved in Lean.  Octets are
naturals (`u8` values).  The process-wide fragment pool is embedded as the
free list it holds, threaded explicitly through the operations that
allocate or free fragments.
-/

def FRAGMENT_SIZE : Nat := 512
def POOL_GROW_SIZE : Nat := 16

/-- `buf::BufferFragment`: a 512-octet array with a live window
`[start, stop)` (`range.start..range.end` in the source). -/
structure BufferFragment where
  start : Nat
  stop : Nat
  data : List Nat
deriving DecidableEq, Repr

/-- `BufferFragment::new()`: zero-filled array, empty window. -/
def BufferFragment.new : BufferFragment :=
  ⟨0, 0, List.replicate FRAGMENT_SIZE 0⟩

/-- `BufferFragment::len()`: the window size `end - start`. -/
def BufferFragment.flen (f : BufferFragment) : Nat :=
  f.stop - f.start

/-- The live octets `data[start..end]` of a fragment. -/
def BufferFragment.window (f : BufferFragment) : List Nat :=
  (f.data.drop f.start).take (f.stop - f.start)

/-- Overwrite `data[s..s + src.len()]` with `src`
(`copy_from_slice` / `fill`). -/
def listSetRange (data : List Nat) (s : Nat) (src : List Nat) : List Nat :=
  data.take s ++ src ++ data.drop (s + src.length)

/-- `buf::FragmentPool`, reduced to the free list it owns. -/
abbrev FragmentPool := List BufferFragment

/-- `FragmentPool::free`: push a fragment back on the free list. -/
def FragmentPool.free (pool : FragmentPool) (frag : BufferFragment) : FragmentPool :=
  frag :: pool

/-- Free a whole chain back to the pool (the drop loops in the source). -/
def FragmentPool.freeAll (pool : FragmentPool) (frags : List BufferFragment) : FragmentPool :=
  frags.foldl FragmentPool.free pool

/-- `FragmentPool::alloc`: if the free list is empty, `grow` first pushes
`POOL_GROW_SIZE` freshly zeroed fragments; then the head is popped and its
window is reset to `0..0`.  The fragment's *array contents are not
cleared*. -/
def FragmentPool.alloc (pool : FragmentPool) : BufferFragment × FragmentPool :=
  match pool with
  | [] =>
    (BufferFragment.new, List.replicate (POOL_GROW_SIZE - 1) BufferFragment.new)
  | f :: rest => ({ f with start := 0, stop := 0 }, rest)

/-- `buf::NetBuffer`: fragment chain plus cached length. -/
structure NetBuffer where
  fragments : List BufferFragment
  length : Nat
deriving DecidableEq, Repr

/-- `NetBuffer::new()`. -/
def NetBuffer.new : NetBuffer := ⟨[], 0⟩

/-- `NetBuffer::is_empty()`. -/
def NetBuffer.is_empty (b : NetBuffer) : Bool :=
  b.length == 0

/-- The octet sequence held by the buffer: the concatenation of all
fragment windows, exactly what `iter`/`copy_to_slice` read out. -/
def NetBuffer.contents (b : NetBuffer) : List Nat :=
  (b.fragments.map BufferFragment.window).flatten

/-- Sum of the fragment windows (what the cached `length` must equal). -/
def NetBuffer.sumWindows (b : NetBuffer) : Nat :=
  (b.fragments.map BufferFragment.flen).sum

/-- The spec's NetBuffer invariants (a), (b), (c): cached length equals the
sum of fragment windows; every fragment has `0 ≤ start ≤ end ≤ 512`; an
empty buffer has no fragments. -/
def NetBuffer.invariants (b : NetBuffer) : Prop :=
  b.length = b.sumWindows ∧
    (∀ f ∈ b.fragments, f.start ≤ f.stop ∧ f.stop ≤ FRAGMENT_SIZE) ∧
    (b.length = 0 → b.fragments = [])

/-- Structural well-formedness of a live buffer, as checked by the source's
`validate_buffer` test helper: every fragment window is non-empty and in
range, and the cached length is the window sum. -/
def NetBuffer.WF (b : NetBuffer) : Prop :=
  b.length = b.sumWindows ∧
    ∀ f ∈ b.fragments, f.start < f.stop ∧ f.stop ≤ FRAGMENT_SIZE

/-- Every fragment array physically holds 512 octets. -/
def NetBuffer.SizedData (b : NetBuffer) : Prop :=
  ∀ f ∈ b.fragments, f.data.length = FRAGMENT_SIZE

/-- List-level form of `sumWindows`. -/
def sumFlens (frags : List BufferFragment) : Nat :=
  (frags.map BufferFragment.flen).sum

/-- List-level form of `contents`. -/
def windowsFlat (frags : List BufferFragment) : List Nat :=
  (frags.map BufferFragment.window).flatten

/-- A structurally valid live fragment: non-empty in-range window over a
full 512-octet array. -/
def BufferFragment.WF (f : BufferFragment) : Prop :=
  (f.start < f.stop ∧ f.stop ≤ FRAGMENT_SIZE) ∧ f.data.length = FRAGMENT_SIZE

/-- Every fragment of a chain is structurally valid. -/
def fragsWF (frags : List BufferFragment) : Prop :=
  ∀ f ∈ frags, f.WF

/-- Every free-list fragment holds a full 512-octet array. -/
def FragmentPool.Sized (pool : FragmentPool) : Prop :=
  ∀ f ∈ pool, f.data.length = FRAGMENT_SIZE

instance (b : NetBuffer) : Decidable b.invariants :=
  inferInstanceAs (Decidable (b.length = b.sumWindows ∧
    (∀ f ∈ b.fragments, f.start ≤ f.stop ∧ f.stop ≤ FRAGMENT_SIZE) ∧
    (b.length = 0 → b.fragments = [])))

instance (b : NetBuffer) : Decidable b.WF :=
  inferInstanceAs (Decidable (b.length = b.sumWindows ∧
    ∀ f ∈ b.fragments, f.start < f.stop ∧ f.stop ≤ FRAGMENT_SIZE))

instance (b : NetBuffer) : Decidable b.SizedData :=
  inferInstanceAs (Decidable (∀ f ∈ b.fragments,
    f.data.length = FRAGMENT_SIZE))

instance (f : BufferFragment) : Decidable f.WF :=
  inferInstanceAs (Decidable ((f.start < f.stop ∧ f.stop ≤ FRAGMENT_SIZE) ∧
    f.data.length = FRAGMENT_SIZE))

instance (frags : List BufferFragment) : Decidable (fragsWF frags) :=
  inferInstanceAs (Decidable (∀ f ∈ frags, f.WF))

instance (pool : FragmentPool) : Decidable pool.Sized :=
  inferInstanceAs (Decidable (∀ f ∈ pool, f.data.length = FRAGMENT_SIZE))

/-- The fragment-prepending loop of `NetBuffer::new_prealloc`: while octets
remain, allocate a fragment, give it window `0..min(to_add, 512)`, and
prepend it to the chain. -/
def newPreallocLoop (to_add : Nat) (frags : List BufferFragment)
    (pool : FragmentPool) : List BufferFragment × FragmentPool :=
  if h : to_add > 0 then
    let ap := pool.alloc
    let frag_size := min to_add FRAGMENT_SIZE
    newPreallocLoop (to_add - frag_size)
      ({ ap.1 with start := 0, stop := frag_size } :: frags) ap.2
  else
    (frags, pool)
termination_by to_add
decreasing_by
  have : 1 ≤ min to_add FRAGMENT_SIZE := by
    simp [FRAGMENT_SIZE]; omega
  omega

/-- `NetBuffer::new_prealloc(length)`: documented as "a buffer of a
specific length that is zero filled". -/
def NetBuffer.new_prealloc (length : Nat) (pool : FragmentPool) :
    NetBuffer × FragmentPool :=
  let fp := newPreallocLoop length [] pool
  (⟨fp.1, length⟩, fp.2)

/-- `NetBuffer::alloc_header(size)`: reserve `size` zeroed octets at the
front, contiguous in the head fragment.  `none` on the source's
`assert!(size <= FRAGMENT_SIZE)`.  If there is no head fragment or its
pre-window slack is too small, a fresh fragment is prepended with its
window anchored at the array's tail; otherwise the head window's start
moves back.  The reserved octets are zero-filled. -/
def NetBuffer.alloc_header (b : NetBuffer) (size : Nat) (pool : FragmentPool) :
    Option (NetBuffer × FragmentPool) :=
  if size > FRAGMENT_SIZE then none
  else
    match b.fragments with
    | [] =>
      let ap := pool.alloc
      let nf : BufferFragment :=
        { start := FRAGMENT_SIZE - size, stop := FRAGMENT_SIZE,
          data := listSetRange ap.1.data (FRAGMENT_SIZE - size) (List.replicate size 0) }
      some (⟨[nf], b.length + size⟩, ap.2)
    | head :: rest =>
      if head.start < size then
        let ap := pool.alloc
        let nf : BufferFragment :=
          { start := FRAGMENT_SIZE - size, stop := FRAGMENT_SIZE,
            data := listSetRange ap.1.data (FRAGMENT_SIZE - size) (List.replicate size 0) }
        some (⟨nf :: head :: rest, b.length + size⟩, ap.2)
      else
        let nh : BufferFragment :=
          { head with
            start := head.start - size,
            data := listSetRange head.data (head.start - size) (List.replicate size 0) }
        some (⟨nh :: rest, b.length + size⟩, pool)

/-- The whole-fragment removal loop of `trim_head`: while octets remain to
trim, release head fragments entirely covered; stop at a fragment longer
than the remainder.  `none` on the source's `unwrap` of an exhausted
chain. -/
def trimHeadLoop : List BufferFragment → Nat → FragmentPool →
    Option (List BufferFragment × Nat × FragmentPool)
  | frags, 0, pool => some (frags, 0, pool)
  | [], _ + 1, _ => none
  | f :: rest, r + 1, pool =>
    if f.flen > r + 1 then
      some (f :: rest, r + 1, pool)
    else
      trimHeadLoop rest (r + 1 - f.flen) (pool.free f)

/-- The tail of `trim_head` after the whole-fragment loop: truncate the
head fragment by the remaining partial amount (`unwrap` panic when the
chain is empty), and check the closing
`assert!(fragments.is_some() || length == 0)`. -/
def trimHeadFinish (blen size : Nat) (frags : List BufferFragment)
    (remaining : Nat) (pool : FragmentPool) :
    Option (NetBuffer × FragmentPool) :=
  if remaining > 0 then
    match frags with
    | [] => none
    | f :: rest =>
      some (⟨{ f with start := f.start + remaining } :: rest, blen - size⟩, pool)
  else
    if frags.isEmpty && decide (blen - size ≠ 0) then none
    else some (⟨frags, blen - size⟩, pool)

/-- `NetBuffer::trim_head(size)`: drop `size` leading octets.  `none` on
the source's `assert!(size <= len)`, on `unwrap` of an exhausted chain, or
on the closing `assert!(fragments.is_some() || length == 0)`. -/
def NetBuffer.trim_head (b : NetBuffer) (size : Nat) (pool : FragmentPool) :
    Option (NetBuffer × FragmentPool) :=
  if size > b.length then none
  else
    match trimHeadLoop b.fragments size pool with
    | none => none
    | some out => trimHeadFinish b.length size out.1 out.2.1 out.2.2

/-- The keep-scan of `trim_tail`: walk to the first fragment at which the
octets to keep run out, truncate it if it is strictly longer, and free
every fragment after it.  `none` on the source's `unwrap` of an exhausted
chain. -/
def trimTailKeep : List BufferFragment → Nat → FragmentPool →
    Option (List BufferFragment × FragmentPool)
  | [], _, _ => none
  | f :: rest, remaining, pool =>
    if f.flen ≥ remaining then
      let f' := if f.flen > remaining then { f with stop := f.start + remaining } else f
      some ([f'], pool.freeAll rest)
    else
      match trimTailKeep rest (remaining - f.flen) pool with
      | none => none
      | some kp => some (f :: kp.1, kp.2)

/-- `NetBuffer::trim_tail(size)`: drop `size` trailing octets.  `none` on
the source's `assert!(size <= len)` or on `unwrap` of an exhausted chain.
Trimming everything frees the whole chain. -/
def NetBuffer.trim_tail (b : NetBuffer) (size : Nat) (pool : FragmentPool) :
    Option (NetBuffer × FragmentPool) :=
  if size > b.length then none
  else if size = b.length then
    some (⟨[], 0⟩, pool.freeAll b.fragments)
  else
    match trimTailKeep b.fragments (b.length - size) pool with
    | none => none
    | some kp => some (⟨kp.1, b.length - size⟩, kp.2)

/-- The copy loop of `append_from_slice`: fill the free tail space of the
last fragment, then keep allocating fragments until the data is copied. -/
def appendLoop (f : BufferFragment) (data : List Nat) (pool : FragmentPool) :
    List BufferFragment × FragmentPool :=
  let copy_len := min (FRAGMENT_SIZE - f.stop) data.length
  let f' : BufferFragment :=
    { f with
      stop := f.stop + copy_len,
      data := listSetRange f.data f.stop (data.take copy_len) }
  let rest := data.drop copy_len
  if h : rest = [] then
    ([f'], pool)
  else
    let ap := pool.alloc
    let mp := appendLoop { ap.1 with start := 0, stop := 0 } rest ap.2
    (f' :: mp.1, mp.2)
termination_by (data.length, f.stop)
decreasing_by
  have hd : data.length ≠ 0 := by
    intro h0
    exact h (List.drop_eq_nil_of_le (by omega))
  by_cases hs : FRAGMENT_SIZE - f.stop = 0
  · rw [show (data.drop (min (FRAGMENT_SIZE - f.stop) data.length)).length
        = data.length from by simp [hs]]
    apply Prod.Lex.right
    simp only [FRAGMENT_SIZE] at hs
    omega
  · apply Prod.Lex.left
    simp only [List.length_drop]
    have hmin : 0 < min (FRAGMENT_SIZE - f.stop) data.length :=
      lt_min (by omega) (by omega)
    omega

/-- Walk to the last fragment of a chain (allocating a first fragment when
the chain is empty) and run the copy loop there. -/
def appendChain : List BufferFragment → List Nat → FragmentPool →
    List BufferFragment × FragmentPool
  | [], data, pool =>
    let ap := pool.alloc
    appendLoop { ap.1 with start := 0, stop := 0 } data ap.2
  | [f], data, pool => appendLoop f data pool
  | f :: g :: rest, data, pool =>
    let cp := appendChain (g :: rest) data pool
    (f :: cp.1, cp.2)

/-- `NetBuffer::append_from_slice(data)`: copy `data` to the tail,
extending the last fragment and allocating new ones as needed. -/
def NetBuffer.append_from_slice (b : NetBuffer) (data : List Nat)
    (pool : FragmentPool) : NetBuffer × FragmentPool :=
  if data = [] then (b, pool)
  else
    let cp := appendChain b.fragments data pool
    (⟨cp.1, b.length + data.length⟩, cp.2)

/-- The slice sequence produced by `NetBuffer::iter(length)`: one slice per
fragment, each at most the remaining octet budget. -/
def iterSlices : List BufferFragment → Nat → List (List Nat)
  | _, 0 => []
  | [], _ + 1 => []
  | f :: rest, r + 1 =>
    let slice_length := min f.flen (r + 1)
    ((f.data.drop f.start).take slice_length) :: iterSlices rest (r + 1 - slice_length)

/-- `NetBuffer::append_from_buffer(other, length)`: append the slices of
`other.iter(length)` one by one. -/
def NetBuffer.append_from_buffer (b other : NetBuffer) (length : Nat)
    (pool : FragmentPool) : NetBuffer × FragmentPool :=
  (iterSlices other.fragments length).foldl
    (fun bp s => bp.1.append_from_slice s bp.2) (b, pool)

/-- `NetBuffer::append_buffer(other)`: splice `other`'s chain onto the tail
(`other` is consumed). -/
def NetBuffer.append_buffer (b other : NetBuffer) : NetBuffer :=
  ⟨b.fragments ++ other.fragments, b.length + other.length⟩

/-! ## TCP (`tcp.rs`) -/

/-- `u32::wrapping_add`. -/
def wadd32 (a b : Nat) : Nat :=
  (a % U32MOD + b % U32MOD) % U32MOD

def FLAG_FIN : Nat := 1
def FLAG_SYN : Nat := 2
def FLAG_RST : Nat := 4
def FLAG_PSH : Nat := 8
def FLAG_ACK : Nat := 16

def RETRANSMIT_INTERVAL : Nat := 1000
def DEFAULT_TCP_MSS : Nat := 536
def MAX_RECEIVE_WINDOW : Nat := 65535

/-- `tcp::TCPState`. -/
inductive TCPState where
  | Closed | SynSent | Established | CloseWait | LastAck
  | FinWait1 | FinWait2 | Closing | TimeWait | Listen | SynReceived
deriving DecidableEq, Repr

/-- `tcp::TCPReassembler`: next expected sequence plus the unordered list
of out-of-order `(seq, payload)` entries. -/
structure TCPReassembler where
  next_sequence : Nat
  out_of_order : List (Nat × NetBuffer)
deriving DecidableEq, Repr

/-- `TCPReassembler::new()`. -/
def TCPReassembler.new : TCPReassembler := ⟨0, []⟩

/-- `TCPReassembler::set_next_expect`. -/
def TCPReassembler.set_next_expect (r : TCPReassembler) (seq_num : Nat) :
    TCPReassembler :=
  { r with next_sequence := seq_num }

/-- `TCPReassembler::get_next_expect`. -/
def TCPReassembler.get_next_expect (r : TCPReassembler) : Nat :=
  r.next_sequence

/-- The rescan loop inside `TCPReassembler::add_packet`: walk the
out-of-order list with index `i`; an entry older than the arriving
packet's sequence (`seq_gt seq_num entry.seq`) is removed; an entry whose
sequence equals the current `next_sequence` is spliced onto the packet,
advances `next_sequence`, and restarts the scan at 0; any other entry is
skipped. -/
def reasmLoop (seq_num : Nat) (next : Nat) (packet : NetBuffer)
    (l : List (Nat × NetBuffer)) (i : Nat) :
    Nat × NetBuffer × List (Nat × NetBuffer) :=
  if hi : i < l.length then
    let e := l.get ⟨i, hi⟩
    if seq_gt seq_num e.1 then
      reasmLoop seq_num next packet (l.eraseIdx i) i
    else if e.1 = next then
      reasmLoop seq_num (wadd32 next e.2.length) (packet.append_buffer e.2)
        (l.eraseIdx i) 0
    else
      reasmLoop seq_num next packet l (i + 1)
  else
    (next, packet, l)
termination_by (l.length, l.length - i)
decreasing_by
  · apply Prod.Lex.left
    rw [List.length_eraseIdx_of_lt hi]
    omega
  · apply Prod.Lex.left
    rw [List.length_eraseIdx_of_lt hi]
    omega
  · apply Prod.Lex.right
    omega

/-- `TCPReassembler::add_packet`: an in-order packet advances
`next_sequence`, reclaims whatever the out-of-order list can contribute,
and is returned; any other packet is pushed onto the out-of-order list. -/
def TCPReassembler.add_packet (r : TCPReassembler) (packet : NetBuffer)
    (seq_num : Nat) : Option NetBuffer × TCPReassembler :=
  if seq_num = r.next_sequence then
    let next1 := wadd32 r.next_sequence packet.length
    let res := reasmLoop seq_num next1 packet r.out_of_order 0
    (some res.2.1, ⟨res.1, res.2.2⟩)
  else
    (none, { r with out_of_order := r.out_of_order ++ [(seq_num, packet)] })

/-- Feed a list of `(seq, packet)` segments to the reassembler in order,
collecting the emitted in-order buffers. -/
def TCPReassembler.feed (r : TCPReassembler) :
    List (Nat × NetBuffer) → List NetBuffer × TCPReassembler
  | [] => ([], r)
  | (seq, pkt) :: rest =>
    let step := r.add_packet pkt seq
    let tail := step.2.feed rest
    (step.1.toList ++ tail.1, tail.2)

/-- Ghost data for reassembly proofs: the segments of a contiguous
partition, tagged with their byte offsets from the start of the range. -/
def withOffsets (off : Nat) : List (List Nat) → List (Nat × List Nat)
  | [] => []
  | p :: ps => (off, p) :: withOffsets (off + p.length) ps

/-- Turn an offset-tagged segment into the on-the-wire `(seq, payload)`
pair for a stream whose first sequence number is `base`. -/
def encSeg (base : Nat) (e : Nat × List Nat) : Nat × List Nat :=
  ((base + e.1) % U32MOD, e.2)

/-- The `(seq, payload)` segments of a partition `parts` of the range
`[base, base + N)` (N = total length), in range order. -/
def coverSegments (base : Nat) (parts : List (List Nat)) :
    List (Nat × List Nat) :=
  (withOffsets 0 parts).map (encSeg base)

/-- Forget a queued packet's buffer structure, keeping `(seq, octets)`. -/
def segAbs (e : Nat × NetBuffer) : Nat × List Nat :=
  (e.1, e.2.contents)

/-- The per-socket protocol state (`tcp::TCPSocketState`), omitting only
the fields irrelevant to packet processing (ports, addresses, the accept
queue and the delayed-ack bookkeeping). -/
structure TCPSocketState where
  state : TCPState
  receive_queue : NetBuffer
  reassembler : TCPReassembler
  highest_seq_received : Nat
  send_unacked : Nat
  send_next_seq : Nat
  send_window : Nat
  send_last_win_seq : Nat
  send_last_win_ack : Nat
  retransmit_queue : NetBuffer
  retransmit_timer_id : Int
  transmit_mss : Nat
deriving DecidableEq, Repr

/-- A TCP segment as handed to `tcp_output` by `send_packet`: the header
fields chosen by the socket plus the payload octets. -/
structure SentSegment where
  seq_num : Nat
  ack_num : Nat
  flags : Nat
  window : Nat
  payload : List Nat
deriving DecidableEq, Repr

/-- `TCPSocketState::is_established`: any state other than Closed,
SynSent, TimeWait. -/
def TCPSocketState.is_established (s : TCPSocketState) : Bool :=
  match s.state with
  | TCPState.Closed | TCPState.SynSent | TCPState.TimeWait => false
  | _ => true

/-- States in which an outgoing ACK must also acknowledge the peer's FIN. -/
def TCPSocketState.inFinStates (s : TCPSocketState) : Bool :=
  match s.state with
  | TCPState.FinWait1 | TCPState.FinWait2 | TCPState.Closing
  | TCPState.CloseWait => true
  | _ => false

/-- `TCPSocketState::send_packet`: builds the segment sent for `packet`
with `flags`: sequence `send_next_seq`, cumulative ack from the
reassembler (plus one for the peer's FIN when all data up to it has
arrived), and the advertised receive window
`MAX_RECEIVE_WINDOW - receive_queue.len()` (u16 arithmetic). -/
def TCPSocketState.send_packet (s : TCPSocketState) (packet : NetBuffer)
    (flags : Nat) : SentSegment :=
  let receive_window :=
    (MAX_RECEIVE_WINDOW + 65536 - s.receive_queue.length % 65536) % 65536
  let ack_seq :=
    (s.reassembler.get_next_expect +
      (if s.inFinStates &&
          (s.highest_seq_received == s.reassembler.get_next_expect)
        then 1 else 0)) % U32MOD
  { seq_num := s.send_next_seq,
    ack_num := ack_seq,
    flags := flags,
    window := receive_window,
    payload := packet.contents }

/-- `tcp::retransmit` (the retransmit-timer callback body): on a
non-Closed socket it bumps the `packets_retransmitted` counter, and if the
retransmit queue is non-empty it copies up to `transmit_mss` octets from
its head into a fresh packet, sends it with `ACK|PSH` via `send_packet`,
and re-arms the timer.  Returns the updated socket, the pool, the segment
sent (if any) and whether the counter was bumped;
`fresh_timer_id` stands for the id handed out by `timer::set_timer`. -/
def retransmit (s : TCPSocketState) (pool : FragmentPool)
    (fresh_timer_id : Int) :
    TCPSocketState × FragmentPool × Option SentSegment × Bool :=
  if s.state = TCPState.Closed then
    (s, pool, none, false)
  else if s.retransmit_queue.is_empty then
    (s, pool, none, true)
  else
    let pp := NetBuffer.append_from_buffer NetBuffer.new s.retransmit_queue
      s.transmit_mss pool
    let seg := s.send_packet pp.1 (FLAG_ACK ||| FLAG_PSH)
    ({ s with retransmit_timer_id := fresh_timer_id }, pp.2, some seg, true)

/-- The ACK-processing block of `tcp_input` (RFC 9293 3.10.7.4, "check the
ACK field"): on an ACK segment for an established-ish socket, an
acceptable ack (`snd.una < ack ≤ snd.nxt`) trims the acked octets from
the retransmit queue, cancels the retransmit timer when the queue
empties, and advances `snd.una`; then the window-update rule runs.
`none` on the panics inside `trim_head`. -/
def tcp_input_ack (s : TCPSocketState) (pool : FragmentPool)
    (flags ack_num seq_num remote_window_size : Nat) :
    Option (TCPSocketState × FragmentPool) :=
  if decide (flags &&& FLAG_ACK ≠ 0) && s.is_established then
    let step1 : Option (TCPSocketState × FragmentPool) :=
      if seq_lt s.send_unacked ack_num && seq_le ack_num s.send_next_seq then
        let trim := wsub32 ack_num s.send_unacked
        match s.retransmit_queue.trim_head trim pool with
        | none => none
        | some qp =>
          if qp.1.is_empty then
            some ({ s with
                    retransmit_queue := qp.1,
                    retransmit_timer_id := -1,
                    send_unacked := ack_num }, qp.2)
          else
            some ({ s with
                    retransmit_queue := qp.1,
                    send_unacked := ack_num }, qp.2)
      else
        some (s, pool)
    match step1 with
    | none => none
    | some sp =>
      let s1 := sp.1
      if seq_le s1.send_unacked ack_num && seq_le ack_num s1.send_next_seq &&
          (seq_lt s1.send_last_win_seq seq_num ||
            (decide (s1.send_last_win_seq = seq_num) &&
              seq_le s1.send_last_win_ack ack_num)) then
        some ({ s1 with
                send_window := remote_window_size % 65536,
                send_last_win_seq := seq_num,
                send_last_win_ack := ack_num }, sp.2)
      else
        some (s1, sp.2)
  else
    some (s, pool)

/-- The socket-lookup phase of `tcp_input`: what the stack does with a
decoded segment before per-socket processing. -/
inductive TcpDemuxAction where
  /-- No matching socket: reply with an `RST|ACK` segment. -/
  | rst (seg : SentSegment) : TcpDemuxAction
  /-- An existing 4-tuple entry handles the segment. -/
  | toSocket (key : SocketKey) : TcpDemuxAction
  /-- A listener spawns a child socket registered under `key`. -/
  | newConn (key : SocketKey) : TcpDemuxAction
deriving DecidableEq, Repr

/-- The demultiplexing step of `tcp_input` (after checksum validation and
header decode): look up the exact 4-tuple; failing that, a listener on
`dest_port` with a SYN segment spawns a child; otherwise an `RST|ACK`
with `seq = 1`, `ack = received_seq + 1` is emitted and nothing is
registered.  Returns the action and the port map afterwards. -/
def tcp_input_demux (portMap : List SocketKey) (source_ip : IPAddr)
    (source_port dest_port seq_num flags : Nat) :
    TcpDemuxAction × List SocketKey :=
  if (source_ip, source_port, dest_port) ∈ portMap then
    (TcpDemuxAction.toSocket (source_ip, source_port, dest_port), portMap)
  else if (IPAddr.unspecified, 0, dest_port) ∈ portMap ∧ flags &&& FLAG_SYN ≠ 0 then
    (TcpDemuxAction.newConn (source_ip, source_port, dest_port),
      (source_ip, source_port, dest_port) :: portMap)
  else
    (TcpDemuxAction.rst
      { seq_num := 1, ack_num := (seq_num + 1) % U32MOD,
        flags := FLAG_RST ||| FLAG_ACK, window := 0, payload := [] },
      portMap)

/-! ## Concrete fixtures used to evaluate the model -/

/-- 100 octets of value 7 in one fragment: a well-formed retransmit
queue. -/
def bufSeven : NetBuffer :=
  ⟨[⟨0, 100, List.replicate 512 7⟩], 100⟩

/-- A socket in `Established` with `snd.una = 1000`, `snd.nxt = 1100` and
the 100 octets in between queued for retransmission. -/
def sampleSocket : TCPSocketState :=
  { state := TCPState.Established,
    receive_queue := NetBuffer.new,
    reassembler := TCPReassembler.new,
    highest_seq_received := 0,
    send_unacked := 1000,
    send_next_seq := 1100,
    send_window := 65535,
    send_last_win_seq := 0,
    send_last_win_ack := 0,
    retransmit_queue := bufSeven,
    retransmit_timer_id := 5,
    transmit_mss := 536 }

/-- One out-of-order octet parked at sequence 1050 while `next_expected`
is 1000. -/
def reasmFixture : TCPReassembler :=
  ⟨1000, [(1050, ⟨[⟨0, 1, List.replicate 512 3⟩], 1⟩)]⟩

/-- A 100-octet in-order payload for the reassembler fixture. -/
def packet100 : NetBuffer :=
  ⟨[⟨0, 100, List.replicate 512 1⟩], 100⟩

/-- A buffer satisfying invariants (a)-(c) literally while carrying a
zero-length trailing fragment (window `7..7`). -/
def bDegen : NetBuffer :=
  ⟨[⟨0, 5, List.replicate 512 1⟩, ⟨7, 7, List.replicate 512 2⟩], 5⟩

/-- A fragment pool whose head fragment was used before being freed: its
array still holds the octet 5 at offset 0. -/
def stalePool : FragmentPool :=
  [⟨0, 0, 5 :: List.replicate 511 0⟩]

/-- One-octet buffer holding `[7]` (first octet of the C1 range). -/
def oneBuf7 : NetBuffer := ⟨[⟨0, 1, List.replicate 512 7⟩], 1⟩

/-- One-octet buffer holding `[9]` (last octet of the C1 range). -/
def oneBuf9 : NetBuffer := ⟨[⟨0, 1, List.replicate 512 9⟩], 1⟩

/-- A structurally valid buffer of `2^31` zero octets (4194304 full
fragments): the middle segment of a range of `2^31 + 2` octets. -/
def hugeC1Buf : NetBuffer :=
  ⟨List.replicate 4194304 ⟨0, 512, List.replicate 512 0⟩, 2147483648⟩

/-- A partition of a `2^31 + 2`-octet range into three segments. -/
def c1badParts : List (List Nat) :=
  [[7], List.replicate 2147483648 0, [9]]

/-- The same segments arriving with the last octet first: the entry
parked at offset `2^31 + 1` is wrongly discarded by the in-order arrival
at offset 0 (`seq_gt 0 (2^31 + 1)` holds under wrapping order). -/
def c1badInput : List (Nat × NetBuffer) :=
  [(2147483649, oneBuf9), (0, oneBuf7), (1, hugeC1Buf)]

/-- One-octet buffer holding `[5]`. -/
def buf5 : NetBuffer := ⟨[⟨0, 1, List.replicate 512 5⟩], 1⟩

/-- One-octet buffer holding `[6]`. -/
def buf6 : NetBuffer := ⟨[⟨0, 1, List.replicate 512 6⟩], 1⟩

/-- A two-segment cover of `[2^32 - 1, 2^32 + 1)` (the range wraps the
32-bit sequence space), delivered out of order. -/
def c1goodInput : List (Nat × NetBuffer) :=
  [(0, buf6), (4294967295, buf5)]

end NetStack

/-! ## Theorems -/

namespace NetStack

/-- **C10**: `compute_ones_comp` (and `compute_checksum` built on it) returns
normally for every slice of length ≥ 1, but the empty slice makes
`slice.len() - 1` underflow and the call panic, so the embedding is total
only under the precondition that the slice is non-empty. -/
theorem C10_ones_comp_total_iff_nonempty (c : Nat) (slice : List Nat)
    (h : slice ≠ []) :
    (compute_ones_comp c slice).isSome ∧ (compute_checksum slice).isSome ∧
      compute_ones_comp c [] = none ∧ compute_checksum [] = none := by
  match slice with
  | [] => exact absurd rfl h
  | x :: rest =>
    refine ⟨rfl, ?_, rfl, rfl⟩
    simp [compute_checksum, compute_ones_comp]

/-- Witness for C10 at the concrete slice `[0x00, 0x01]` (the spec's own test
vector: its checksum is `0xfffe`). -/
theorem C10_ones_comp_total_iff_nonempty_witness :
    ([0, 1] : List Nat) ≠ [] ∧
      ((compute_ones_comp 0 [0, 1]).isSome ∧ (compute_checksum [0, 1]).isSome ∧
        compute_ones_comp 0 [] = none ∧ compute_checksum [] = none) :=
  ⟨by decide, C10_ones_comp_total_iff_nonempty 0 [0, 1] (by decide)⟩

/-- **C9, counterexample**: timer ids are not unique over the whole process
lifetime — the 0-th and the `2^32`-nd call both get id `1` (the `u32`
counter masked with `0x7fffffff` repeats with period `2^31`), and the
`(2^31 - 1)`-th call is handed the non-positive id `0`. -/
theorem C9_timer_id_not_unique :
    set_timer_id 0 = set_timer_id 4294967296 ∧ (0 : Nat) ≠ 4294967296 ∧
      set_timer_id 2147483647 = 0 := by
  refine ⟨?_, by decide, ?_⟩ <;> norm_num [set_timer_id, U32MOD]

/-- **C9, amended**: every timer id returned by `set_timer` is non-negative
(so the sentinel `-1` never collides with a real id), and among the first
`2^31 - 1` calls every id is positive and any two distinct calls get
distinct ids. -/
theorem C9_timer_ids_positive_unique (m n : Nat)
    (hm : m < 2147483647) (hn : n < 2147483647) (hmn : m ≠ n) :
    0 ≤ set_timer_id m ∧ 0 < set_timer_id m ∧
      set_timer_id m ≠ set_timer_id n := by
  have idm : set_timer_id m = ((1 + m : Nat) : Int) := by
    have h1 : (1 + m) % U32MOD = 1 + m := Nat.mod_eq_of_lt (by simp [U32MOD]; omega)
    have h2 : (1 + m) % 2147483648 = 1 + m := Nat.mod_eq_of_lt (by omega)
    simp [set_timer_id, h1, h2]
  have idn : set_timer_id n = ((1 + n : Nat) : Int) := by
    have h1 : (1 + n) % U32MOD = 1 + n := Nat.mod_eq_of_lt (by simp [U32MOD]; omega)
    have h2 : (1 + n) % 2147483648 = 1 + n := Nat.mod_eq_of_lt (by omega)
    simp [set_timer_id, h1, h2]
  refine ⟨by rw [idm]; positivity, by rw [idm]; positivity, ?_⟩
  rw [idm, idn]
  intro h
  exact hmn (by exact_mod_cast Nat.add_left_cancel (show 1 + m = 1 + n by exact_mod_cast h))

/-- Witness for C9 (amended) at calls 3 and 5. -/
theorem C9_timer_ids_positive_unique_witness :
    (3 : Nat) < 2147483647 ∧ (5 : Nat) < 2147483647 ∧ (3 : Nat) ≠ 5 ∧
      (0 ≤ set_timer_id 3 ∧ 0 < set_timer_id 3 ∧ set_timer_id 3 ≠ set_timer_id 5) :=
  ⟨by decide, by decide, by decide,
    C9_timer_ids_positive_unique 3 5 (by decide) (by decide) (by decide)⟩

/-- **C8, counterexample**: port `65535` is never returned — every draw
produces `49152 + (r % 16383) ≤ 65534`, so the claim that every port of
`[49152, 65535]` (65535 included) is a possible result is false. -/
theorem C8_port_65535_unreachable :
    ¬ ∃ r : Nat, ephemeral_port_of_draw r = 65535 := by
  rintro ⟨r, hr⟩
  have h : (r % 65536) % 16383 < 16383 := Nat.mod_lt _ (by norm_num)
  simp only [ephemeral_port_of_draw, EPHEMERAL_PORT_BASE] at hr
  omega

/-- **C8, amended**: every port returned by `find_ephemeral_port` lies in
`[49152, 65534]`, every port of that interval is a possible draw, and a
returned port never coincides with an existing
`(remote_ip, remote_port, local_port)` key in the TCP port map. -/
theorem C8_ephemeral_port_range (portMap : List SocketKey) (rip : IPAddr)
    (rport : Nat) (draws : List Nat) (p : Nat)
    (h : find_ephemeral_port portMap rip rport draws = some p) :
    (49152 ≤ p ∧ p ≤ 65534 ∧ (rip, rport, p) ∉ portMap) ∧
      ∀ q, 49152 ≤ q → q ≤ 65534 → ∃ r, ephemeral_port_of_draw r = q := by
  refine ⟨?_, ?_⟩
  · induction draws with
    | nil => simp [find_ephemeral_port] at h
    | cons r rest ih =>
      simp only [find_ephemeral_port] at h
      by_cases hc : (rip, rport, ephemeral_port_of_draw r) ∈ portMap
      · exact ih (by simpa [hc] using h)
      · have hp : ephemeral_port_of_draw r = p := by
          simpa [hc] using h
        have hlt : (r % 65536) % 16383 < 16383 := Nat.mod_lt _ (by norm_num)
        subst hp
        refine ⟨by simp [ephemeral_port_of_draw, EPHEMERAL_PORT_BASE], ?_, hc⟩
        simp only [ephemeral_port_of_draw, EPHEMERAL_PORT_BASE]
        omega
  · intro q hq1 hq2
    refine ⟨q - 49152, ?_⟩
    have h1 : q - 49152 < 16383 := by omega
    have h2 : (q - 49152) % 65536 = q - 49152 := Nat.mod_eq_of_lt (by omega)
    simp only [ephemeral_port_of_draw, EPHEMERAL_PORT_BASE, h2,
      Nat.mod_eq_of_lt h1]
    omega

/-- Witness for C8 (amended): with an empty port map, the first draw `100`
yields port `49252`. -/
theorem C8_ephemeral_port_range_witness :
    find_ephemeral_port [] IPAddr.unspecified 80 [100] = some 49252 ∧
      ((49152 ≤ 49252 ∧ 49252 ≤ 65534 ∧
          (IPAddr.unspecified, 80, 49252) ∉ ([] : List SocketKey)) ∧
        ∀ q, 49152 ≤ q → q ≤ 65534 → ∃ r, ephemeral_port_of_draw r = q) :=
  ⟨by decide,
    C8_ephemeral_port_range [] IPAddr.unspecified 80 [100] 49252 (by decide)⟩

/-! ### Reassembler rescan-loop lemmas -/

theorem reasmLoop_base (seq_num next : Nat) (packet : NetBuffer)
    (l : List (Nat × NetBuffer)) (i : Nat) (h : ¬ i < l.length) :
    reasmLoop seq_num next packet l i = (next, packet, l) := by
  rw [reasmLoop.eq_def]
  simp [h]

theorem reasmLoop_stale (seq_num next : Nat) (packet : NetBuffer)
    (l : List (Nat × NetBuffer)) (i : Nat) (h : i < l.length)
    (hgt : seq_gt seq_num (l.get ⟨i, h⟩).1 = true) :
    reasmLoop seq_num next packet l i =
      reasmLoop seq_num next packet (l.eraseIdx i) i := by
  simp only [List.get_eq_getElem] at hgt
  rw [reasmLoop.eq_def]
  simp [h, hgt]

theorem reasmLoop_splice (seq_num next : Nat) (packet : NetBuffer)
    (l : List (Nat × NetBuffer)) (i : Nat) (h : i < l.length)
    (hgt : seq_gt seq_num (l.get ⟨i, h⟩).1 = false)
    (heq : (l.get ⟨i, h⟩).1 = next) :
    reasmLoop seq_num next packet l i =
      reasmLoop seq_num (wadd32 next (l.get ⟨i, h⟩).2.length)
        (packet.append_buffer (l.get ⟨i, h⟩).2) (l.eraseIdx i) 0 := by
  simp only [List.get_eq_getElem] at hgt heq
  rw [heq] at hgt
  rw [reasmLoop.eq_def]
  simp [h, hgt, heq]

theorem reasmLoop_skip (seq_num next : Nat) (packet : NetBuffer)
    (l : List (Nat × NetBuffer)) (i : Nat) (h : i < l.length)
    (hgt : seq_gt seq_num (l.get ⟨i, h⟩).1 = false)
    (hne : (l.get ⟨i, h⟩).1 ≠ next) :
    reasmLoop seq_num next packet l i =
      reasmLoop seq_num next packet l (i + 1) := by
  simp only [List.get_eq_getElem] at hgt hne
  rw [reasmLoop.eq_def]
  simp [h, hgt, hne]

theorem take_eraseIdx_same (l : List (Nat × NetBuffer)) (i : Nat)
    (h : i < l.length) : (l.eraseIdx i).take i = l.take i := by
  rw [List.eraseIdx_eq_take_drop_succ]
  rw [List.take_left']
  rw [List.length_take]
  omega

/-- After the rescan loop finishes, no surviving out-of-order entry is
older than the arriving packet (`seq_gt seq_num · = false`) and none
matches the final `next_sequence`. -/
theorem reasmLoop_entries (seq_num next : Nat) (packet : NetBuffer)
    (l : List (Nat × NetBuffer)) (i : Nat)
    (hpre : ∀ e ∈ l.take i, seq_gt seq_num e.1 = false ∧ e.1 ≠ next) :
    ∀ e ∈ (reasmLoop seq_num next packet l i).2.2,
      seq_gt seq_num e.1 = false ∧
        e.1 ≠ (reasmLoop seq_num next packet l i).1 := by
  revert hpre
  induction next, packet, l, i using reasmLoop.induct seq_num with
  | case1 next packet l i h e hgt ih =>
    intro hpre
    rw [reasmLoop_stale seq_num next packet l i h hgt]
    apply ih
    rw [take_eraseIdx_same l i h]
    exact hpre
  | case2 packet l i h e hgt ih =>
    intro hpre
    have hgt2 : seq_gt seq_num (l.get ⟨i, h⟩).1 = false := by simpa using hgt
    rw [reasmLoop_splice seq_num e.1 packet l i h hgt2 rfl]
    apply ih
    simp
  | case3 next packet l i h e hgt hne ih =>
    intro hpre
    have hgt2 : seq_gt seq_num (l.get ⟨i, h⟩).1 = false := by simpa using hgt
    rw [reasmLoop_skip seq_num next packet l i h hgt2 hne]
    apply ih
    intro x hx
    rw [List.take_succ] at hx
    rcases List.mem_append.1 hx with h1 | h2
    · exact hpre x h1
    · have hxe : x = l.get ⟨i, h⟩ := by
        have hg : l[i]? = some l[i] := List.getElem?_eq_getElem h
        rw [hg] at h2
        simpa [List.get_eq_getElem] using h2
      subst hxe
      exact ⟨hgt2, hne⟩
  | case4 next packet l i h =>
    intro hpre
    rw [reasmLoop_base seq_num next packet l i h]
    intro x hx
    exact hpre x (by rw [List.take_of_length_le (by omega)]; exact hx)

/-- **C4, counterexample**: with `next_expected = 1000` and the entry
`(1050, 1 octet)` parked out of order, consuming an in-order 100-octet
segment at 1000 advances `next_expected` to 1100 yet leaves the entry
`(1050, ·)` in the list, although `1050` is below the advanced
`next_expected` under wrapping order (`seq_gt 1100 1050`).  The discard
test compares against the arriving packet's sequence, not the advanced
`next_expected`. -/
theorem C4_stale_entry_survives :
    (reasmFixture.add_packet packet100 1000).2.next_sequence = 1100 ∧
      (reasmFixture.add_packet packet100 1000).2.out_of_order =
        reasmFixture.out_of_order ∧
      seq_gt 1100 1050 = true := by
  have h0 : (0 : Nat) < reasmFixture.out_of_order.length := by decide
  have hget : reasmFixture.out_of_order.get ⟨0, h0⟩ =
      (1050, ⟨[⟨0, 1, List.replicate 512 3⟩], 1⟩) := rfl
  have hstep1 : reasmLoop 1000 1100 packet100 reasmFixture.out_of_order 0 =
      reasmLoop 1000 1100 packet100 reasmFixture.out_of_order 1 := by
    refine reasmLoop_skip 1000 1100 packet100 reasmFixture.out_of_order 0 h0 ?_ ?_
    · rw [hget]
      decide
    · rw [hget]
      decide
  have hloop : reasmLoop 1000 1100 packet100 reasmFixture.out_of_order 0 =
      (1100, packet100, reasmFixture.out_of_order) := by
    rw [hstep1]
    exact reasmLoop_base 1000 1100 packet100 reasmFixture.out_of_order 1
      (by decide)
  have hadd : reasmFixture.add_packet packet100 1000 =
      (some packet100, ⟨1100, reasmFixture.out_of_order⟩) := by
    have hn : reasmFixture.next_sequence = 1000 := rfl
    have hl : packet100.length = 100 := rfl
    have hw : wadd32 1000 100 = 1100 := by decide
    simp only [TCPReassembler.add_packet, hn, hl, hw]
    rw [if_pos trivial, hloop]
  rw [hadd]
  exact ⟨rfl, rfl, by decide⟩

/-- **C4, amended**: whenever `add_packet` consumes an in-order segment
(`seq == next_expected`), it returns a buffer and rescans the
out-of-order list; afterwards no entry whose starting sequence is below
the *consumed segment's* sequence number (the pre-advance `next_expected`)
remains, and no entry's sequence equals the final advanced
`next_expected`.  Entries lying between the consumed segment's sequence
and the advanced `next_expected` may survive. -/
theorem C4_inorder_consume_cleans_list (r : TCPReassembler)
    (packet : NetBuffer) (seq : Nat) (h : seq = r.next_sequence) :
    (r.add_packet packet seq).1.isSome = true ∧
      ∀ e ∈ (r.add_packet packet seq).2.out_of_order,
        seq_gt seq e.1 = false ∧
          e.1 ≠ (r.add_packet packet seq).2.next_sequence := by
  subst h
  simp only [TCPReassembler.add_packet]
  rw [if_pos trivial]
  refine ⟨rfl, ?_⟩
  intro e he
  exact reasmLoop_entries r.next_sequence
    (wadd32 r.next_sequence packet.length) packet r.out_of_order 0
    (by simp) e he

/-- Witness for C4 (amended) at the fixture reassembler. -/
theorem C4_inorder_consume_cleans_list_witness :
    (1000 : Nat) = reasmFixture.next_sequence ∧
      ((reasmFixture.add_packet packet100 1000).1.isSome = true ∧
        ∀ e ∈ (reasmFixture.add_packet packet100 1000).2.out_of_order,
          seq_gt 1000 e.1 = false ∧
            e.1 ≠ (reasmFixture.add_packet packet100 1000).2.next_sequence) :=
  ⟨rfl, C4_inorder_consume_cleans_list reasmFixture packet100 1000 rfl⟩

/-- **C5**: a segment whose 4-tuple matches no socket and whose
destination port has no listener draws an `RST|ACK` reply with
`seq = 1`, `ack = received_seq + 1`, and the TCP port map is unchanged —
no socket state is created. -/
theorem C5_rst_on_unknown_tuple (portMap : List SocketKey) (sip : IPAddr)
    (sport dport seq flags : Nat)
    (h1 : (sip, sport, dport) ∉ portMap)
    (h2 : (IPAddr.unspecified, 0, dport) ∉ portMap) :
    tcp_input_demux portMap sip sport dport seq flags =
      (TcpDemuxAction.rst
        { seq_num := 1, ack_num := (seq + 1) % U32MOD,
          flags := FLAG_RST ||| FLAG_ACK, window := 0, payload := [] },
        portMap) := by
  simp [tcp_input_demux, h1, h2]

/-- Witness for C5: a `SYN|ACK` from `10.0.0.1:4444` to port 80 on a stack
whose only socket is an unrelated connection. -/
theorem C5_rst_on_unknown_tuple_witness :
    (IPAddr.v4 [10, 0, 0, 1], 4444, 80) ∉
        [((IPAddr.v4 [192, 168, 1, 1] : IPAddr), 1000, 2000)] ∧
      (IPAddr.unspecified, 0, 80) ∉
        [((IPAddr.v4 [192, 168, 1, 1] : IPAddr), 1000, 2000)] ∧
      tcp_input_demux [((IPAddr.v4 [192, 168, 1, 1] : IPAddr), 1000, 2000)]
          (IPAddr.v4 [10, 0, 0, 1]) 4444 80 9999 18 =
        (TcpDemuxAction.rst
          { seq_num := 1, ack_num := (9999 + 1) % U32MOD,
            flags := FLAG_RST ||| FLAG_ACK, window := 0, payload := [] },
          [((IPAddr.v4 [192, 168, 1, 1] : IPAddr), 1000, 2000)]) :=
  ⟨by decide, by decide,
    C5_rst_on_unknown_tuple
      [((IPAddr.v4 [192, 168, 1, 1] : IPAddr), 1000, 2000)]
      (IPAddr.v4 [10, 0, 0, 1]) 4444 80 9999 18 (by decide) (by decide)⟩

/-- **C2**: evaluating the retransmit-timer callback on `sampleSocket`
(100 unacknowledged octets, `snd.una = 1000`, `snd.nxt = 1100`): it does
copy up to `transmit_mss` octets from the head of the retransmit queue
into a fresh `ACK|PSH` packet, re-arms the timer and bumps the
retransmission counter — but the segment goes out with sequence number
`snd.nxt = 1100`, not `snd.una = 1000` as the spec requires. -/
theorem C2_retransmit_sends_at_send_next_seq :
    (retransmit sampleSocket [] 9).2.2.1 =
        some { seq_num := 1100, ack_num := 0, flags := 24, window := 65535,
               payload := List.replicate 100 7 } ∧
      sampleSocket.send_unacked = 1000 ∧ (1100 : Nat) ≠ 1000 ∧
      (retransmit sampleSocket [] 9).1.retransmit_timer_id = 9 ∧
      (retransmit sampleSocket [] 9).2.2.2 = true := by
  have hloop2 : appendLoop BufferFragment.new (List.replicate 100 7)
      (List.replicate 15 BufferFragment.new) =
      ([⟨0, 100, List.replicate 100 7 ++ List.replicate 412 0⟩],
        List.replicate 15 BufferFragment.new) := by
    rw [appendLoop.eq_def]
    norm_num [BufferFragment.new, FRAGMENT_SIZE, listSetRange]
  have hpp : NetBuffer.append_from_buffer NetBuffer.new
      sampleSocket.retransmit_queue sampleSocket.transmit_mss [] =
      (⟨[⟨0, 100, List.replicate 100 7 ++ List.replicate 412 0⟩], 100⟩,
        List.replicate 15 BufferFragment.new) := by
    have h0 : NetBuffer.append_from_buffer NetBuffer.new
        sampleSocket.retransmit_queue sampleSocket.transmit_mss [] =
        (⟨(appendLoop BufferFragment.new (List.replicate 100 7)
            (List.replicate 15 BufferFragment.new)).1, 100⟩,
          (appendLoop BufferFragment.new (List.replicate 100 7)
            (List.replicate 15 BufferFragment.new)).2) := rfl
    rw [h0, hloop2]
  refine ⟨?_, rfl, by decide, ?_, ?_⟩
  · simp only [retransmit]
    rw [if_neg (by decide : ¬ (sampleSocket.state = TCPState.Closed))]
    rw [if_neg (by decide : ¬ (sampleSocket.retransmit_queue.is_empty = true))]
    rw [hpp]
    simp only [TCPSocketState.send_packet]
    norm_num [sampleSocket, TCPReassembler.new, NetBuffer.new,
      TCPSocketState.inFinStates, MAX_RECEIVE_WINDOW, U32MOD, FLAG_ACK,
      FLAG_PSH, NetBuffer.contents, BufferFragment.window]
    exact ⟨rfl, rfl⟩
  · simp only [retransmit]
    rw [if_neg (by decide : ¬ (sampleSocket.state = TCPState.Closed))]
    rw [if_neg (by decide : ¬ (sampleSocket.retransmit_queue.is_empty = true))]
  · simp only [retransmit]
    rw [if_neg (by decide : ¬ (sampleSocket.state = TCPState.Closed))]
    rw [if_neg (by decide : ¬ (sampleSocket.retransmit_queue.is_empty = true))]

/-! ### NetBuffer structural lemmas -/

theorem windowsFlat_nil : windowsFlat [] = [] := rfl

theorem windowsFlat_cons (f : BufferFragment) (rest : List BufferFragment) :
    windowsFlat (f :: rest) = f.window ++ windowsFlat rest := by
  simp [windowsFlat]

theorem windowsFlat_append (a b : List BufferFragment) :
    windowsFlat (a ++ b) = windowsFlat a ++ windowsFlat b := by
  simp [windowsFlat]

theorem sumFlens_nil : sumFlens [] = 0 := rfl

theorem sumFlens_cons (f : BufferFragment) (rest : List BufferFragment) :
    sumFlens (f :: rest) = f.flen + sumFlens rest := by
  simp [sumFlens]

theorem sumFlens_append (a b : List BufferFragment) :
    sumFlens (a ++ b) = sumFlens a + sumFlens b := by
  simp [sumFlens]

theorem sumWindows_eq (b : NetBuffer) :
    b.sumWindows = sumFlens b.fragments := rfl

theorem contents_eq (b : NetBuffer) :
    b.contents = windowsFlat b.fragments := rfl

/-- A valid fragment's live window has exactly `stop - start` octets. -/
theorem BufferFragment.WF.window_length {f : BufferFragment} (h : f.WF) :
    f.window.length = f.flen := by
  obtain ⟨⟨h1, h2⟩, h3⟩ := h
  simp only [BufferFragment.window, BufferFragment.flen, List.length_take,
    List.length_drop, h3]
  omega

/-- Over a valid chain the flattened windows have `sumFlens` octets. -/
theorem windowsFlat_length (frags : List BufferFragment) (h : fragsWF frags) :
    (windowsFlat frags).length = sumFlens frags := by
  induction frags with
  | nil => rfl
  | cons f rest ih =>
    rw [windowsFlat_cons, sumFlens_cons, List.length_append,
      (h f (by simp)).window_length, ih (fun g hg => h g (by simp [hg]))]

/-- `WF` plus `SizedData` in the list form. -/
theorem wf_sized_iff_fragsWF (b : NetBuffer) :
    (b.WF ∧ b.SizedData) ↔
      (b.length = sumFlens b.fragments ∧ fragsWF b.fragments) := by
  constructor
  · rintro ⟨⟨hl, hf⟩, hs⟩
    exact ⟨hl, fun f hfm => ⟨hf f hfm, hs f hfm⟩⟩
  · rintro ⟨hl, hf⟩
    exact ⟨⟨hl, fun f hfm => (hf f hfm).1⟩, fun f hfm => (hf f hfm).2⟩

/-- A structurally valid buffer satisfies the spec's invariants (a)-(c). -/
theorem wf_invariants (b : NetBuffer) (h : b.WF) : b.invariants := by
  obtain ⟨hl, hf⟩ := h
  refine ⟨hl, fun f hfm => ⟨Nat.le_of_lt (hf f hfm).1, (hf f hfm).2⟩, ?_⟩
  intro h0
  rw [sumWindows_eq] at hl
  match hfr : b.fragments with
  | [] => rfl
  | f :: rest =>
    exfalso
    rw [hfr, sumFlens_cons] at hl
    have hfl := (hf f (by rw [hfr]; simp)).1
    simp only [BufferFragment.flen] at hl
    omega

/-- A valid buffer's contents have exactly `length` octets. -/
theorem contents_length (b : NetBuffer) (hwf : b.WF) (hsz : b.SizedData) :
    b.contents.length = b.length := by
  rw [contents_eq, windowsFlat_length b.fragments
    ((wf_sized_iff_fragsWF b).1 ⟨hwf, hsz⟩).2, hwf.1, sumWindows_eq]

theorem listSetRange_length (data : List Nat) (s : Nat) (src : List Nat)
    (h : s + src.length ≤ data.length) :
    (listSetRange data s src).length = data.length := by
  simp only [listSetRange, List.length_append, List.length_take,
    List.length_drop]
  omega

/-! ### Fragment pool lemmas -/

theorem alloc_fields (pool : FragmentPool) (hp : pool.Sized) :
    (pool.alloc.1.start = 0 ∧ pool.alloc.1.stop = 0 ∧
      pool.alloc.1.data.length = FRAGMENT_SIZE) ∧ pool.alloc.2.Sized := by
  match pool with
  | [] =>
    refine ⟨⟨rfl, rfl, by simp [FragmentPool.alloc, BufferFragment.new]⟩, ?_⟩
    intro f hf
    rw [List.eq_of_mem_replicate hf]
    simp [BufferFragment.new]
  | g :: rest =>
    exact ⟨⟨rfl, rfl, hp g (by simp)⟩,
      fun f hf => hp f (List.mem_cons_of_mem g hf)⟩

theorem free_sized (pool : FragmentPool) (f : BufferFragment)
    (hp : pool.Sized) (hf : f.data.length = FRAGMENT_SIZE) :
    (pool.free f).Sized := by
  intro g hg
  simp only [FragmentPool.free, List.mem_cons] at hg
  rcases hg with rfl | hg
  · exact hf
  · exact hp g hg

theorem freeAll_sized (frags : List BufferFragment) (pool : FragmentPool)
    (hp : pool.Sized) (hf : ∀ f ∈ frags, f.data.length = FRAGMENT_SIZE) :
    (pool.freeAll frags).Sized := by
  induction frags generalizing pool with
  | nil => exact hp
  | cons f rest ih =>
    exact ih (pool.free f)
      (free_sized pool f hp (hf f (by simp)))
      (fun g hg => hf g (by simp [hg]))

/-! ### trim_head / trim_tail specifications -/

/-- Advancing a fragment's window start by `k` drops `k` octets from its
window. -/
theorem window_advance (f : BufferFragment) (k : Nat) :
    ({ f with start := f.start + k } : BufferFragment).window =
      f.window.drop k := by
  simp only [BufferFragment.window, List.drop_take, List.drop_drop]
  rw [Nat.sub_sub]

theorem trimHeadLoop_spec (frags : List BufferFragment) (r : Nat)
    (pool : FragmentPool) (hw : fragsWF frags) (hp : pool.Sized)
    (hr : r ≤ sumFlens frags) :
    ∃ out, trimHeadLoop frags r pool = some out ∧
      fragsWF out.1 ∧ out.2.2.Sized ∧ out.2.1 ≤ r ∧
      sumFlens out.1 = sumFlens frags - (r - out.2.1) ∧
      windowsFlat out.1 = (windowsFlat frags).drop (r - out.2.1) ∧
      (out.2.1 = 0 ∨ ∃ f fr, out.1 = f :: fr ∧ out.2.1 < f.flen) := by
  induction frags generalizing r pool with
  | nil =>
    match r with
    | 0 =>
      exact ⟨([], 0, pool), rfl, hw, hp, Nat.le_refl 0, by simp, by simp,
        Or.inl rfl⟩
    | r + 1 =>
      exfalso
      rw [sumFlens_nil] at hr
      omega
  | cons f rest ih =>
    match r with
    | 0 =>
      exact ⟨(f :: rest, 0, pool), rfl, hw, hp, Nat.le_refl 0, by simp,
        by simp, Or.inl rfl⟩
    | r + 1 =>
      have hwf := hw f (by simp)
      have hlen := hwf.window_length
      by_cases hfl : f.flen > r + 1
      · refine ⟨(f :: rest, r + 1, pool), ?_, hw, hp, Nat.le_refl _, ?_, ?_,
          Or.inr ⟨f, rest, rfl, hfl⟩⟩
        · simp only [trimHeadLoop]
          rw [if_pos hfl]
        · show sumFlens (f :: rest) = sumFlens (f :: rest) - (r + 1 - (r + 1))
          omega
        · show windowsFlat (f :: rest) =
            (windowsFlat (f :: rest)).drop (r + 1 - (r + 1))
          simp
      · have hwrest : fragsWF rest := fun g hg => hw g (by simp [hg])
        have hr2 : r + 1 - f.flen ≤ sumFlens rest := by
          rw [sumFlens_cons] at hr
          omega
        obtain ⟨⟨frags3, rem3, pool3⟩, heq, hw2, hp2, hle, hsum, hwl, hrem⟩ :=
          ih (r + 1 - f.flen) (pool.free f) hwrest
            (free_sized pool f hp hwf.2) hr2
        simp only [] at hw2 hp2 hle hsum hwl hrem
        refine ⟨(frags3, rem3, pool3), ?_, hw2, hp2, ?_, ?_, ?_, ?_⟩
        · simp only [trimHeadLoop]
          rw [if_neg hfl]
          exact heq
        · show rem3 ≤ r + 1
          clear hrem
          omega
        · show sumFlens frags3 = sumFlens (f :: rest) - (r + 1 - rem3)
          rw [hsum, sumFlens_cons]
          clear hrem
          omega
        · show windowsFlat frags3 =
            (windowsFlat (f :: rest)).drop (r + 1 - rem3)
          rw [hwl, windowsFlat_cons,
            show r + 1 - rem3 = f.window.length + (r + 1 - f.flen - rem3)
              from by rw [hlen]; clear hrem hwl; omega,
            List.drop_append]
        · exact hrem

theorem trim_head_spec (b : NetBuffer) (n : Nat) (pool : FragmentPool)
    (hwf : b.WF) (hsz : b.SizedData) (hp : pool.Sized) (hn : n ≤ b.length) :
    ∃ out, b.trim_head n pool = some out ∧
      out.1.WF ∧ out.1.SizedData ∧ out.2.Sized ∧
      out.1.length = b.length - n ∧
      out.1.contents = b.contents.drop n := by
  have hfr := (wf_sized_iff_fragsWF b).1 ⟨hwf, hsz⟩
  have hr : n ≤ sumFlens b.fragments := hfr.1 ▸ hn
  obtain ⟨⟨frags2, rem2, pool2⟩, heq, hw2, hp2, hle, hsum, hwl, hrem⟩ :=
    trimHeadLoop_spec b.fragments n pool hfr.2 hp hr
  simp only [] at hw2 hp2 hle hsum hwl hrem
  by_cases h0 : rem2 = 0
  · subst h0
    simp only [Nat.sub_zero] at hsum hwl
    have hempty : frags2 = [] → b.length - n = 0 := by
      intro hnil
      rw [hnil, sumFlens_nil] at hsum
      rw [hfr.1]
      omega
    refine ⟨(⟨frags2, b.length - n⟩, pool2), ?_, ?_, ?_, hp2, rfl, ?_⟩
    · simp only [NetBuffer.trim_head]
      rw [if_neg (by omega), heq]
      have hguard : (frags2.isEmpty && decide (b.length - n ≠ 0)) = false := by
        rcases hfr2 : frags2 with _ | ⟨g, gs⟩
        · simp [hempty hfr2]
        · simp
      show trimHeadFinish b.length n frags2 0 pool2 =
        some (⟨frags2, b.length - n⟩, pool2)
      simp only [trimHeadFinish]
      rw [if_neg (lt_irrefl 0), hguard]
      rfl
    · exact ⟨by rw [sumWindows_eq]; rw [hsum, hfr.1],
        fun g hg => (hw2 g hg).1⟩
    · exact fun g hg => (hw2 g hg).2
    · rw [contents_eq, contents_eq, hwl]
  · obtain ⟨f, fr, hout, hflt⟩ := hrem.resolve_left h0
    clear hrem
    subst hout
    have hfwf := hw2 f (by simp)
    have hwindow := hfwf.window_length
    refine ⟨(⟨{ f with start := f.start + rem2 } :: fr, b.length - n⟩,
      pool2), ?_, ?_, ?_, hp2, rfl, ?_⟩
    · simp only [NetBuffer.trim_head]
      rw [if_neg (by omega), heq]
      show trimHeadFinish b.length n (f :: fr) rem2 pool2 =
        some (⟨{ f with start := f.start + rem2 } :: fr, b.length - n⟩, pool2)
      simp only [trimHeadFinish]
      rw [if_pos (by omega : rem2 > 0)]

    · constructor
      · show b.length - n = sumFlens _
        rw [sumFlens_cons,
          show ({ f with start := f.start + rem2 } : BufferFragment).flen
            = f.flen - rem2 from by
              simp only [BufferFragment.flen]
              omega]
        rw [sumFlens_cons] at hsum
        rw [hfr.1]
        omega
      · intro g hg
        rcases List.mem_cons.1 hg with rfl | hg2
        · refine ⟨?_, hfwf.1.2⟩
          show f.start + rem2 < f.stop
          simp only [BufferFragment.flen] at hflt
          omega
        · exact (hw2 g (by simp [hg2])).1
    · intro g hg
      rcases List.mem_cons.1 hg with rfl | hg2
      · exact hfwf.2
      · exact (hw2 g (by simp [hg2])).2
    · rw [contents_eq, contents_eq, windowsFlat_cons, window_advance]
      rw [windowsFlat_cons] at hwl
      have hda : (f.window ++ windowsFlat fr).drop rem2 =
          f.window.drop rem2 ++ windowsFlat fr :=
        List.drop_append_of_le_length (by rw [hwindow]; omega)
      rw [← hda, hwl, List.drop_drop,
        show n - rem2 + rem2 = n from by omega]

theorem trimTailKeep_spec (frags : List BufferFragment) (r : Nat)
    (pool : FragmentPool) (hw : fragsWF frags) (hp : pool.Sized)
    (hr1 : 1 ≤ r) (hr2 : r ≤ sumFlens frags) :
    ∃ out, trimTailKeep frags r pool = some out ∧
      fragsWF out.1 ∧ out.2.Sized ∧ sumFlens out.1 = r := by
  induction frags generalizing r pool with
  | nil =>
    exfalso
    rw [sumFlens_nil] at hr2
    omega
  | cons f rest ih =>
    have hwf := hw f (by simp)
    have hwrest : fragsWF rest := fun g hg => hw g (by simp [hg])
    by_cases hge : f.flen ≥ r
    · refine ⟨([if f.flen > r then
          { f with stop := f.start + r } else f], pool.freeAll rest),
        ?_, ?_, ?_, ?_⟩
      · simp only [trimTailKeep]
        rw [if_pos hge]
      · intro g hg
        rcases List.mem_singleton.1 hg with rfl
        by_cases hgt : f.flen > r
        · rw [if_pos hgt]
          have hs1 := hwf.1.1
          have hs2 := hwf.1.2
          simp only [BufferFragment.flen] at hgt
          refine ⟨⟨?_, ?_⟩, hwf.2⟩
          · show f.start < f.start + r
            omega
          · show f.start + r ≤ FRAGMENT_SIZE
            omega
        · rw [if_neg hgt]
          exact hwf
      · exact freeAll_sized rest pool hp (fun g hg => (hwrest g hg).2)
      · by_cases hgt : f.flen > r
        · rw [if_pos hgt, sumFlens_cons, sumFlens_nil]
          have hs1 := hwf.1.1
          simp only [BufferFragment.flen] at hgt ⊢
          omega
        · rw [if_neg hgt, sumFlens_cons, sumFlens_nil]
          omega
    · have hr2b : r - f.flen ≤ sumFlens rest := by
        rw [sumFlens_cons] at hr2
        omega
      have hr1b : 1 ≤ r - f.flen := by omega
      obtain ⟨⟨keep2, pool2⟩, heq, hw2, hp2, hsum⟩ :=
        ih (r - f.flen) pool hwrest hp hr1b hr2b
      refine ⟨(f :: keep2, pool2), ?_, ?_, hp2, ?_⟩
      · simp only [trimTailKeep]
        rw [if_neg hge, heq]
      · intro g hg
        rcases List.mem_cons.1 hg with rfl | hg2
        · exact hwf
        · exact hw2 g hg2
      · rw [sumFlens_cons, hsum]
        omega

theorem trim_tail_spec (b : NetBuffer) (n : Nat) (pool : FragmentPool)
    (hwf : b.WF) (hsz : b.SizedData) (hp : pool.Sized) (hn : n ≤ b.length) :
    ∃ out, b.trim_tail n pool = some out ∧
      out.1.WF ∧ out.1.SizedData ∧ out.2.Sized ∧
      out.1.length = b.length - n := by
  have hfr := (wf_sized_iff_fragsWF b).1 ⟨hwf, hsz⟩
  by_cases heq : n = b.length
  · refine ⟨(⟨[], 0⟩, pool.freeAll b.fragments), ?_, ?_, ?_, ?_, ?_⟩
    · simp only [NetBuffer.trim_tail]
      rw [if_neg (by omega), if_pos heq]
    · exact ⟨rfl, by simp [fragsWF]⟩
    · simp [NetBuffer.SizedData]
    · exact freeAll_sized b.fragments pool hp (fun g hg => (hfr.2 g hg).2)
    · show (0 : Nat) = b.length - n
      omega
  · have hr1 : 1 ≤ b.length - n := by omega
    have hr2 : b.length - n ≤ sumFlens b.fragments := by
      rw [← hfr.1]
      omega
    obtain ⟨⟨keep2, pool2⟩, hkeq, hw2, hp2, hsum⟩ :=
      trimTailKeep_spec b.fragments (b.length - n) pool hfr.2 hp hr1 hr2
    refine ⟨(⟨keep2, b.length - n⟩, pool2), ?_, ?_, ?_, hp2, rfl⟩
    · simp only [NetBuffer.trim_tail]
      rw [if_neg (by omega), if_neg heq, hkeq]
    · exact ⟨by rw [sumWindows_eq]; exact hsum.symm,
        fun g hg => (hw2 g hg).1⟩
    · exact fun g hg => (hw2 g hg).2

/-! ### alloc_header specification -/

theorem alloc_header_cons (b : NetBuffer) (size : Nat) (pool : FragmentPool)
    (head : BufferFragment) (rest : List BufferFragment)
    (hbf : b.fragments = head :: rest) (hsz : ¬ size > FRAGMENT_SIZE) :
    b.alloc_header size pool =
      (if head.start < size then
        some (⟨⟨FRAGMENT_SIZE - size, FRAGMENT_SIZE,
            listSetRange pool.alloc.1.data (FRAGMENT_SIZE - size)
              (List.replicate size 0)⟩ :: head :: rest,
          b.length + size⟩, pool.alloc.2)
      else
        some (⟨{ head with
            start := head.start - size,
            data := listSetRange head.data (head.start - size)
              (List.replicate size 0) } :: rest,
          b.length + size⟩, pool)) := by
  simp only [NetBuffer.alloc_header]
  rw [if_neg hsz, hbf]

theorem alloc_header_nil (b : NetBuffer) (size : Nat) (pool : FragmentPool)
    (hbf : b.fragments = []) (hsz : ¬ size > FRAGMENT_SIZE) :
    b.alloc_header size pool =
      some (⟨[⟨FRAGMENT_SIZE - size, FRAGMENT_SIZE,
          listSetRange pool.alloc.1.data (FRAGMENT_SIZE - size)
            (List.replicate size 0)⟩],
        b.length + size⟩, pool.alloc.2) := by
  simp only [NetBuffer.alloc_header]
  rw [if_neg hsz, hbf]

theorem alloc_header_spec (b : NetBuffer) (n : Nat) (pool : FragmentPool)
    (hwf : b.WF) (hsz : b.SizedData) (hp : pool.Sized)
    (h1 : 1 ≤ n) (h2 : n ≤ FRAGMENT_SIZE) :
    ∃ out, b.alloc_header n pool = some out ∧
      out.1.WF ∧ out.1.SizedData ∧ out.2.Sized ∧
      out.1.length = b.length + n := by
  obtain ⟨⟨ha0, ha1, ha2⟩, hap⟩ := alloc_fields pool hp
  have hfr := (wf_sized_iff_fragsWF b).1 ⟨hwf, hsz⟩
  have hFS : (0 : Nat) < FRAGMENT_SIZE := by
    simp [FRAGMENT_SIZE]
  have hnewlen : (listSetRange pool.alloc.1.data (FRAGMENT_SIZE - n)
      (List.replicate n 0)).length = FRAGMENT_SIZE := by
    rw [listSetRange_length]
    · exact ha2
    · rw [ha2, List.length_replicate]
      omega
  match hbf : b.fragments with
  | [] =>
    have hlen0 : b.length = 0 := by
      rw [hfr.1, hbf, sumFlens_nil]
    refine ⟨(⟨[⟨FRAGMENT_SIZE - n, FRAGMENT_SIZE,
        listSetRange pool.alloc.1.data (FRAGMENT_SIZE - n)
          (List.replicate n 0)⟩], b.length + n⟩, pool.alloc.2), ?_, ?_, ?_,
      hap, rfl⟩
    · exact alloc_header_nil b n pool hbf (by omega)
    · constructor
      · rw [sumWindows_eq, sumFlens_cons, sumFlens_nil]
        simp only [BufferFragment.flen]
        omega
      · intro g hg
        rcases List.mem_singleton.1 hg with rfl
        exact ⟨by show FRAGMENT_SIZE - n < FRAGMENT_SIZE; omega,
          Nat.le_refl _⟩
    · intro g hg
      rcases List.mem_singleton.1 hg with rfl
      exact hnewlen
  | head :: rest =>
    have hhwf := hfr.2 head (by rw [hbf]; simp)
    by_cases hh : head.start < n
    · refine ⟨(⟨⟨FRAGMENT_SIZE - n, FRAGMENT_SIZE,
          listSetRange pool.alloc.1.data (FRAGMENT_SIZE - n)
            (List.replicate n 0)⟩ :: head :: rest, b.length + n⟩,
        pool.alloc.2), ?_, ?_, ?_, hap, rfl⟩
      · rw [alloc_header_cons b n pool head rest hbf (by omega), if_pos hh]
      · constructor
        · rw [sumWindows_eq, sumFlens_cons]
          have : b.length = sumFlens (head :: rest) := by rw [hfr.1, hbf]
          simp only [BufferFragment.flen]
          omega
        · intro g hg
          rcases List.mem_cons.1 hg with rfl | hg2
          · exact ⟨by show FRAGMENT_SIZE - n < FRAGMENT_SIZE; omega,
              Nat.le_refl _⟩
          · exact (hfr.2 g (by rw [hbf]; exact hg2)).1
      · intro g hg
        rcases List.mem_cons.1 hg with rfl | hg2
        · exact hnewlen
        · exact (hfr.2 g (by rw [hbf]; exact hg2)).2
    · have hheadlen : (listSetRange head.data (head.start - n)
          (List.replicate n 0)).length = FRAGMENT_SIZE := by
        rw [listSetRange_length]
        · exact hhwf.2
        · rw [hhwf.2, List.length_replicate]
          have := hhwf.1.1
          have := hhwf.1.2
          omega
      refine ⟨(⟨{ head with
          start := head.start - n,
          data := listSetRange head.data (head.start - n)
            (List.replicate n 0) } :: rest, b.length + n⟩, pool), ?_, ?_,
        ?_, hp, rfl⟩
      · rw [alloc_header_cons b n pool head rest hbf (by omega), if_neg hh]
      · constructor
        · rw [sumWindows_eq, sumFlens_cons]
          have hbl : b.length = sumFlens (head :: rest) := by rw [hfr.1, hbf]
          rw [sumFlens_cons] at hbl
          have := hhwf.1.1
          simp only [BufferFragment.flen] at hbl ⊢
          omega
        · intro g hg
          rcases List.mem_cons.1 hg with rfl | hg2
          · have := hhwf.1.1
            have := hhwf.1.2
            exact ⟨by show head.start - n < head.stop; omega, hhwf.1.2⟩
          · exact (hfr.2 g (by rw [hbf]; exact List.mem_cons_of_mem _ hg2)).1
      · intro g hg
        rcases List.mem_cons.1 hg with rfl | hg2
        · exact hheadlen
        · exact (hfr.2 g (by rw [hbf]; exact List.mem_cons_of_mem _ hg2)).2

/-! ### new_prealloc specification -/

theorem newPreallocLoop_step (to_add : Nat) (frags : List BufferFragment)
    (pool : FragmentPool) (h : to_add > 0) :
    newPreallocLoop to_add frags pool =
      newPreallocLoop (to_add - min to_add FRAGMENT_SIZE)
        ({ pool.alloc.1 with start := 0, stop := min to_add FRAGMENT_SIZE }
          :: frags) pool.alloc.2 := by
  rw [newPreallocLoop.eq_def]
  simp [h]

theorem newPreallocLoop_base (frags : List BufferFragment)
    (pool : FragmentPool) :
    newPreallocLoop 0 frags pool = (frags, pool) := by
  rw [newPreallocLoop.eq_def]
  simp

theorem newPreallocLoop_spec (to_add : Nat) (frags : List BufferFragment)
    (pool : FragmentPool) (hp : pool.Sized) (hw : fragsWF frags) :
    fragsWF (newPreallocLoop to_add frags pool).1 ∧
      (newPreallocLoop to_add frags pool).2.Sized ∧
      sumFlens (newPreallocLoop to_add frags pool).1 =
        to_add + sumFlens frags ∧
      (newPreallocLoop to_add frags pool).1.length =
        frags.length + (to_add + 511) / 512 := by
  induction to_add using Nat.strong_induction_on generalizing frags pool with
  | _ n ih =>
    match n with
    | 0 =>
      rw [newPreallocLoop_base]
      refine ⟨hw, hp, ?_, ?_⟩
      · show sumFlens frags = 0 + sumFlens frags
        omega
      · show frags.length = frags.length + (0 + 511) / 512
        norm_num
    | n + 1 =>
      obtain ⟨⟨ha0, ha1, ha2⟩, hap⟩ := alloc_fields pool hp
      rw [newPreallocLoop_step (n + 1) frags pool (by omega)]
      have hmin1 : 1 ≤ min (n + 1) FRAGMENT_SIZE := by
        have : (0 : Nat) < FRAGMENT_SIZE := by simp [FRAGMENT_SIZE]
        omega
      have hminS : min (n + 1) FRAGMENT_SIZE ≤ FRAGMENT_SIZE :=
        Nat.min_le_right _ _
    
      have hw2 : fragsWF ({ pool.alloc.1 with
          start := 0, stop := min (n + 1) FRAGMENT_SIZE } :: frags) := by
        intro g hg
        rcases List.mem_cons.1 hg with rfl | hg2
        · exact ⟨⟨by show 0 < min (n + 1) FRAGMENT_SIZE; omega, hminS⟩, ha2⟩
        · exact hw g hg2
      obtain ⟨c1, c2, c3, c4⟩ :=
        ih (n + 1 - min (n + 1) FRAGMENT_SIZE) (by omega) _ _ hap hw2
      refine ⟨c1, c2, ?_, ?_⟩
      · rw [c3, sumFlens_cons]
        show _ = n + 1 + sumFlens frags
        have : ({ pool.alloc.1 with
            start := 0, stop := min (n + 1) FRAGMENT_SIZE } :
          BufferFragment).flen = min (n + 1) FRAGMENT_SIZE := by
          simp [BufferFragment.flen]
        rw [this]
        omega
      · rw [c4, List.length_cons]
        simp only [FRAGMENT_SIZE] at hmin1 hminS ⊢
        omega

theorem new_prealloc_spec (n : Nat) (pool : FragmentPool) (hp : pool.Sized) :
    (NetBuffer.new_prealloc n pool).1.WF ∧
      (NetBuffer.new_prealloc n pool).1.SizedData ∧
      (NetBuffer.new_prealloc n pool).2.Sized ∧
      (NetBuffer.new_prealloc n pool).1.length = n ∧
      (NetBuffer.new_prealloc n pool).1.fragments.length = (n + 511) / 512 := by
  obtain ⟨c1, c2, c3, c4⟩ :=
    newPreallocLoop_spec n [] pool hp (by simp [fragsWF])
  rw [sumFlens_nil] at c3
  refine ⟨⟨?_, fun g hg => (c1 g hg).1⟩, fun g hg => (c1 g hg).2, c2, rfl, ?_⟩
  · show n = sumFlens (newPreallocLoop n [] pool).1
    omega
  · show (newPreallocLoop n [] pool).1.length = _
    rw [c4]
    simp

/-! ### append specifications -/

theorem appendLoop_done (f : BufferFragment) (data : List Nat)
    (pool : FragmentPool)
    (h : data.drop (min (FRAGMENT_SIZE - f.stop) data.length) = []) :
    appendLoop f data pool =
      ([{ f with
          stop := f.stop + min (FRAGMENT_SIZE - f.stop) data.length,
          data := listSetRange f.data f.stop
            (data.take (min (FRAGMENT_SIZE - f.stop) data.length)) }],
        pool) := by
  rw [appendLoop.eq_def]
  simp [h]

theorem appendLoop_step (f : BufferFragment) (data : List Nat)
    (pool : FragmentPool)
    (h : ¬ data.drop (min (FRAGMENT_SIZE - f.stop) data.length) = []) :
    appendLoop f data pool =
      ({ f with
          stop := f.stop + min (FRAGMENT_SIZE - f.stop) data.length,
          data := listSetRange f.data f.stop
            (data.take (min (FRAGMENT_SIZE - f.stop) data.length)) } ::
        (appendLoop { pool.alloc.1 with start := 0, stop := 0 }
          (data.drop (min (FRAGMENT_SIZE - f.stop) data.length))
          pool.alloc.2).1,
        (appendLoop { pool.alloc.1 with start := 0, stop := 0 }
          (data.drop (min (FRAGMENT_SIZE - f.stop) data.length))
          pool.alloc.2).2) := by
  rw [appendLoop.eq_def]
  simp [h]

theorem appendLoop_spec (f : BufferFragment) (data : List Nat)
    (pool : FragmentPool)
    (hf1 : f.start ≤ f.stop) (hf2 : f.stop ≤ FRAGMENT_SIZE)
    (hf3 : f.data.length = FRAGMENT_SIZE)
    (hst : f.start < f.stop ∨ f.stop < FRAGMENT_SIZE)
    (hd : data ≠ []) (hp : pool.Sized) :
    fragsWF (appendLoop f data pool).1 ∧
      (appendLoop f data pool).2.Sized ∧
      sumFlens (appendLoop f data pool).1 = f.flen + data.length := by
  revert hf1 hf2 hf3 hst hd hp
  induction f, data, pool using appendLoop.induct with
  | case1 f data pool copy_len rest hdone =>
    intro hf1 hf2 hf3 hst hd hp
    have hdone2 : data.drop (min (FRAGMENT_SIZE - f.stop) data.length)
        = [] := hdone
    have hd1 : 1 ≤ data.length := by
      rcases data with _ | ⟨x, xs⟩
      · exact absurd rfl hd
      · simp
    have hcl : min (FRAGMENT_SIZE - f.stop) data.length = data.length := by
      have hmr := Nat.min_le_right (FRAGMENT_SIZE - f.stop) data.length
      have hle := List.drop_eq_nil_iff.1 hdone2
      omega
    have hml := Nat.min_le_left (FRAGMENT_SIZE - f.stop) data.length
    rw [appendLoop_done f data pool hdone2]
    refine ⟨?_, hp, ?_⟩
    · intro g hg
      rcases List.mem_singleton.1 hg with rfl
      refine ⟨⟨?_, ?_⟩, ?_⟩
      · show f.start < f.stop + min (FRAGMENT_SIZE - f.stop) data.length
        omega
      · show f.stop + min (FRAGMENT_SIZE - f.stop) data.length ≤ FRAGMENT_SIZE
        omega
      · show (listSetRange f.data f.stop
            (data.take (min (FRAGMENT_SIZE - f.stop) data.length))).length
          = FRAGMENT_SIZE
        rw [listSetRange_length]
        · exact hf3
        · rw [hf3, List.length_take]
          omega
    · rw [sumFlens_cons, sumFlens_nil]
      show f.stop + min (FRAGMENT_SIZE - f.stop) data.length - f.start + 0 = _
      simp only [BufferFragment.flen]
      omega
  | case2 f data pool copy_len rest hmore ap ih =>
    intro hf1 hf2 hf3 hst hd hp
    have hmore2 : ¬ data.drop (min (FRAGMENT_SIZE - f.stop) data.length)
        = [] := hmore
    obtain ⟨⟨ha0, ha1, ha2⟩, hap⟩ := alloc_fields pool hp
    have hd1 : 1 ≤ data.length := by
      rcases data with _ | ⟨x, xs⟩
      · exact absurd rfl hd
      · simp
    have hml := Nat.min_le_left (FRAGMENT_SIZE - f.stop) data.length
    have hmr := Nat.min_le_right (FRAGMENT_SIZE - f.stop) data.length
    have hrest1 : 1 ≤ (data.drop
        (min (FRAGMENT_SIZE - f.stop) data.length)).length := by
      rcases hcase : data.drop (min (FRAGMENT_SIZE - f.stop) data.length) with
        _ | ⟨x, xs⟩
      · exact absurd hcase hmore2
      · simp
    obtain ⟨c1, c2, c3⟩ := ih rfl.le (by simp [FRAGMENT_SIZE]) ha2
      (Or.inr (by simp [FRAGMENT_SIZE])) hmore2 hap
    rw [appendLoop_step f data pool hmore2]
    refine ⟨?_, c2, ?_⟩
    · intro g hg
      rcases List.mem_cons.1 hg with rfl | hg2
      · refine ⟨⟨?_, ?_⟩, ?_⟩
        · show f.start <
            f.stop + min (FRAGMENT_SIZE - f.stop) data.length
          rcases Nat.eq_zero_or_pos
              (min (FRAGMENT_SIZE - f.stop) data.length) with hz | hpos
          · rcases hst with hst | hst
            · omega
            · exfalso
              rw [List.length_drop] at hrest1
              omega
          · omega
        · show f.stop + min (FRAGMENT_SIZE - f.stop) data.length
            ≤ FRAGMENT_SIZE
          omega
        · show (listSetRange f.data f.stop
              (data.take (min (FRAGMENT_SIZE - f.stop) data.length))).length
            = FRAGMENT_SIZE
          rw [listSetRange_length]
          · exact hf3
          · rw [hf3, List.length_take]
            omega
      · exact c1 g hg2
    · rw [sumFlens_cons, c3]
      have hses : ({ f with
          stop := f.stop + min (FRAGMENT_SIZE - f.stop) data.length,
          data := listSetRange f.data f.stop
            (data.take (min (FRAGMENT_SIZE - f.stop) data.length)) } :
          BufferFragment).flen =
          f.stop + min (FRAGMENT_SIZE - f.stop) data.length - f.start := rfl
      have hzero : ({ pool.alloc.1 with start := 0, stop := 0 } :
          BufferFragment).flen = 0 := rfl
      have hdl : (data.drop
          (min (FRAGMENT_SIZE - f.stop) data.length)).length =
          data.length - min (FRAGMENT_SIZE - f.stop) data.length := by
        simp
      have hfl : f.flen = f.stop - f.start := rfl
      have hzero2 : ({ ap.1 with start := 0, stop := 0 } :
          BufferFragment).flen = 0 := rfl
      have hrl : rest.length =
          data.length - min (FRAGMENT_SIZE - f.stop) data.length := by
        show (data.drop (min (FRAGMENT_SIZE - f.stop) data.length)).length
          = _
        simp
      omega

theorem appendChain_spec (chain : List BufferFragment) (data : List Nat)
    (pool : FragmentPool) (hw : fragsWF chain) (hd : data ≠ [])
    (hp : pool.Sized) :
    fragsWF (appendChain chain data pool).1 ∧
      (appendChain chain data pool).2.Sized ∧
      sumFlens (appendChain chain data pool).1 =
        sumFlens chain + data.length := by
  induction chain with
  | nil =>
    obtain ⟨⟨ha0, ha1, ha2⟩, hap⟩ := alloc_fields pool hp
    obtain ⟨c1, c2, c3⟩ := appendLoop_spec
      { pool.alloc.1 with start := 0, stop := 0 } data pool.alloc.2
      rfl.le (by simp [FRAGMENT_SIZE]) ha2
      (Or.inr (by simp [FRAGMENT_SIZE])) hd hap
    refine ⟨c1, c2, ?_⟩
    rw [show appendChain [] data pool = appendLoop
        { pool.alloc.1 with start := 0, stop := 0 } data pool.alloc.2
      from rfl]
    rw [c3, sumFlens_nil]
    show ({ pool.alloc.1 with start := 0, stop := 0 } :
      BufferFragment).flen + data.length = 0 + data.length
    simp [BufferFragment.flen]
  | cons f rest ih =>
    have hfwf := hw f (by simp)
    match rest with
    | [] =>
      obtain ⟨c1, c2, c3⟩ := appendLoop_spec f data pool
        (Nat.le_of_lt hfwf.1.1) hfwf.1.2 hfwf.2 (Or.inl hfwf.1.1) hd hp
      refine ⟨c1, c2, ?_⟩
      rw [show appendChain [f] data pool = appendLoop f data pool from rfl,
        c3, sumFlens_cons, sumFlens_nil]
      omega
    | g :: gs =>
      have hwr : fragsWF (g :: gs) := fun x hx => hw x (by simp [hx])
      obtain ⟨c1, c2, c3⟩ := ih hwr
      rw [show appendChain (f :: g :: gs) data pool =
          ((f :: (appendChain (g :: gs) data pool).1),
            (appendChain (g :: gs) data pool).2) from rfl]
      refine ⟨?_, c2, ?_⟩
      · intro x hx
        rcases List.mem_cons.1 hx with rfl | hx2
        · exact hfwf
        · exact c1 x hx2
      · show sumFlens (f :: (appendChain (g :: gs) data pool).1) = _
        rw [sumFlens_cons, c3]
        have hsf := sumFlens_cons f (g :: gs)
        omega

theorem append_from_slice_spec (b : NetBuffer) (data : List Nat)
    (pool : FragmentPool) (hwf : b.WF) (hsz : b.SizedData)
    (hp : pool.Sized) :
    (b.append_from_slice data pool).1.WF ∧
      (b.append_from_slice data pool).1.SizedData ∧
      (b.append_from_slice data pool).2.Sized ∧
      (b.append_from_slice data pool).1.length = b.length + data.length := by
  have hfr := (wf_sized_iff_fragsWF b).1 ⟨hwf, hsz⟩
  by_cases hd : data = []
  · subst hd
    simp only [NetBuffer.append_from_slice, if_pos rfl]
    exact ⟨hwf, hsz, hp, by simp⟩
  · obtain ⟨c1, c2, c3⟩ := appendChain_spec b.fragments data pool hfr.2 hd hp
    simp only [NetBuffer.append_from_slice, if_neg hd]
    refine ⟨⟨?_, fun g hg => (c1 g hg).1⟩, fun g hg => (c1 g hg).2, c2,
      trivial⟩
    show b.length + data.length = sumFlens _
    rw [c3, hfr.1]

theorem foldl_append_slices (slices : List (List Nat))
    (b : NetBuffer) (pool : FragmentPool) (hwf : b.WF) (hsz : b.SizedData)
    (hp : pool.Sized) :
    (slices.foldl (fun bp s => bp.1.append_from_slice s bp.2)
        (b, pool)).1.WF ∧
      (slices.foldl (fun bp s => bp.1.append_from_slice s bp.2)
        (b, pool)).1.SizedData ∧
      (slices.foldl (fun bp s => bp.1.append_from_slice s bp.2)
        (b, pool)).2.Sized := by
  induction slices generalizing b pool with
  | nil => exact ⟨hwf, hsz, hp⟩
  | cons s rest ih =>
    obtain ⟨c1, c2, c3, c4⟩ := append_from_slice_spec b s pool hwf hsz hp
    simp only [List.foldl_cons]
    have hstep : b.append_from_slice s pool =
        ((b.append_from_slice s pool).1, (b.append_from_slice s pool).2) :=
      rfl
    rw [hstep]
    exact ih _ _ c1 c2 c3

theorem append_from_buffer_spec (b other : NetBuffer) (length : Nat)
    (pool : FragmentPool) (hwf : b.WF) (hsz : b.SizedData)
    (hp : pool.Sized) :
    (b.append_from_buffer other length pool).1.WF ∧
      (b.append_from_buffer other length pool).1.SizedData ∧
      (b.append_from_buffer other length pool).2.Sized := by
  exact foldl_append_slices (iterSlices other.fragments length) b pool
    hwf hsz hp

theorem append_buffer_spec (b other : NetBuffer) (hb : b.WF)
    (ho : other.WF) :
    (b.append_buffer other).WF ∧
      (b.SizedData → other.SizedData → (b.append_buffer other).SizedData) ∧
      (b.append_buffer other).contents = b.contents ++ other.contents ∧
      (b.append_buffer other).length = b.length + other.length := by
  refine ⟨⟨?_, ?_⟩, ?_, ?_, rfl⟩
  · show b.length + other.length = sumFlens (b.fragments ++ other.fragments)
    rw [sumFlens_append, hb.1, ho.1, sumWindows_eq, sumWindows_eq]
  · intro g hg
    rcases List.mem_append.1 hg with hg2 | hg2
    · exact hb.2 g hg2
    · exact ho.2 g hg2
  · intro hsb hso g hg
    rcases List.mem_append.1 hg with hg2 | hg2
    · exact hsb g hg2
    · exact hso g hg2
  · show windowsFlat (b.fragments ++ other.fragments) = _
    rw [windowsFlat_append]
    rfl

set_option maxRecDepth 16384 in
/-- **C6, counterexample**: `alloc_header(0)` on a fresh empty buffer
creates a buffer of length 0 that owns one (empty-window) fragment,
violating invariant (c); and on a buffer that satisfies invariants
(a)-(c) literally but carries a zero-length fragment (`bDegen`),
`trim_head(len)` also leaves a fragment in a length-0 buffer.  So "every
operation preserves (a)-(c)" fails as stated: `alloc_header` needs
`n ≥ 1`, and preservation needs every fragment window non-empty (as the
source's `validate_buffer` checks). -/
theorem C6_invariants_not_preserved :
    NetBuffer.new.invariants ∧
      NetBuffer.new.alloc_header 0 [] =
        some (⟨[⟨512, 512, List.replicate 512 0⟩], 0⟩,
          List.replicate 15 BufferFragment.new) ∧
      ¬ NetBuffer.invariants ⟨[⟨512, 512, List.replicate 512 0⟩], 0⟩ ∧
      bDegen.invariants ∧ 5 ≤ bDegen.length ∧
      bDegen.trim_head 5 [] =
        some (⟨[⟨7, 7, List.replicate 512 2⟩], 0⟩,
          [⟨0, 5, List.replicate 512 1⟩]) ∧
      ¬ NetBuffer.invariants ⟨[⟨7, 7, List.replicate 512 2⟩], 0⟩ := by
  refine ⟨by decide, by decide, by decide, by decide, by decide, ?_,
    by decide⟩
  decide

/-- **C6, amended**: on buffers whose every fragment window is non-empty
and in range (`NetBuffer.WF`, what `validate_buffer` checks) with
512-octet arrays, every operation — `new`, `new_prealloc`,
`alloc_header` with `1 ≤ n ≤ 512`, `trim_head`/`trim_tail` with
`n ≤ len`, `append_from_slice`, `append_from_buffer`, `append_buffer` —
yields a buffer satisfying the spec invariants: cached length equals the
sum of fragment windows, every fragment has `0 ≤ start ≤ end ≤ 512`, and
a length-0 buffer owns no fragments. -/
theorem C6_netbuffer_ops_preserve_invariants
    (b other : NetBuffer) (pool : FragmentPool) (n : Nat) (data : List Nat)
    (hb1 : b.WF) (hb2 : b.SizedData) (ho1 : other.WF)
    (ho2 : other.SizedData) (hp : pool.Sized) :
    NetBuffer.new.invariants ∧
      (NetBuffer.new_prealloc n pool).1.invariants ∧
      (1 ≤ n → n ≤ FRAGMENT_SIZE →
        ∀ r ∈ b.alloc_header n pool, r.1.invariants) ∧
      (n ≤ b.length → ∀ r ∈ b.trim_head n pool, r.1.invariants) ∧
      (n ≤ b.length → ∀ r ∈ b.trim_tail n pool, r.1.invariants) ∧
      (b.append_from_slice data pool).1.invariants ∧
      (b.append_from_buffer other n pool).1.invariants ∧
      (b.append_buffer other).invariants := by
  refine ⟨⟨rfl, by simp [NetBuffer.new], by simp [NetBuffer.new]⟩,
    ?_, ?_, ?_, ?_, ?_, ?_, ?_⟩
  · exact wf_invariants _ (new_prealloc_spec n pool hp).1
  · intro h1 h2 r hr
    obtain ⟨out, heq, c1, c2, c3, c4⟩ :=
      alloc_header_spec b n pool hb1 hb2 hp h1 h2
    have : r = out := by
      rw [Option.mem_def, heq] at hr
      exact (Option.some.inj hr).symm
    subst this
    exact wf_invariants _ c1
  · intro hn r hr
    obtain ⟨out, heq, c1, c2, c3, c4, c5⟩ :=
      trim_head_spec b n pool hb1 hb2 hp hn
    have : r = out := by
      rw [Option.mem_def, heq] at hr
      exact (Option.some.inj hr).symm
    subst this
    exact wf_invariants _ c1
  · intro hn r hr
    obtain ⟨out, heq, c1, c2, c3, c4⟩ :=
      trim_tail_spec b n pool hb1 hb2 hp hn
    have : r = out := by
      rw [Option.mem_def, heq] at hr
      exact (Option.some.inj hr).symm
    subst this
    exact wf_invariants _ c1
  · exact wf_invariants _ (append_from_slice_spec b data pool hb1 hb2 hp).1
  · exact wf_invariants _
      (append_from_buffer_spec b other n pool hb1 hb2 hp).1
  · exact wf_invariants _ (append_buffer_spec b other hb1 ho1).1

set_option maxRecDepth 16384 in
/-- Witness for C6 (amended) on concrete well-formed buffers. -/
theorem C6_netbuffer_ops_preserve_invariants_witness :
    (bufSeven.WF ∧ bufSeven.SizedData ∧ packet100.WF ∧
      packet100.SizedData ∧ FragmentPool.Sized []) ∧
      (NetBuffer.new.invariants ∧
        (NetBuffer.new_prealloc 10 []).1.invariants ∧
        (1 ≤ 10 → 10 ≤ FRAGMENT_SIZE →
          ∀ r ∈ bufSeven.alloc_header 10 [], r.1.invariants) ∧
        (10 ≤ bufSeven.length →
          ∀ r ∈ bufSeven.trim_head 10 [], r.1.invariants) ∧
        (10 ≤ bufSeven.length →
          ∀ r ∈ bufSeven.trim_tail 10 [], r.1.invariants) ∧
        (bufSeven.append_from_slice [1, 2, 3] []).1.invariants ∧
        (bufSeven.append_from_buffer packet100 10 []).1.invariants ∧
        (bufSeven.append_buffer packet100).invariants) :=
  ⟨⟨by decide, by decide, by decide, by decide, by decide⟩,
    C6_netbuffer_ops_preserve_invariants bufSeven packet100 [] 10 [1, 2, 3]
      (by decide) (by decide) (by decide) (by decide) (by decide)⟩

set_option maxRecDepth 16384 in
/-- **C7**: `new_prealloc(n)` does return a buffer of length exactly `n`
spanning `⌈n/512⌉` fragments, but its octets are *not* necessarily zero:
`FragmentPool::alloc` resets only the window of a reused fragment, not
its array, and `new_prealloc` never clears the data.  Drawing from a pool
whose head fragment still holds the octet 5, `new_prealloc(1)` reads
back `[5]`, contradicting the documented "zero filled" contract. -/
theorem C7_new_prealloc_not_zero_filled :
    (NetBuffer.new_prealloc 1 stalePool).1.length = 1 ∧
      (NetBuffer.new_prealloc 1 stalePool).1.fragments.length = 1 ∧
      (NetBuffer.new_prealloc 1 stalePool).1.contents = [5] ∧
      ([5] : List Nat) ≠ List.replicate 1 0 ∧
      stalePool.Sized := by
  have hstep := newPreallocLoop_step 1 [] stalePool (by omega)
  have hbase := newPreallocLoop_base
    ({ stalePool.alloc.1 with start := 0, stop := min 1 FRAGMENT_SIZE } :: [])
    stalePool.alloc.2
  have hloop : newPreallocLoop 1 [] stalePool =
      ([⟨0, 1, 5 :: List.replicate 511 0⟩], []) := by
    rw [hstep, show (1 - min 1 FRAGMENT_SIZE) = 0 from by decide, hbase]
    rfl
  have hnp : NetBuffer.new_prealloc 1 stalePool =
      (⟨[⟨0, 1, 5 :: List.replicate 511 0⟩], 1⟩, []) := by
    simp only [NetBuffer.new_prealloc, hloop]
  rw [hnp]
  exact ⟨rfl, rfl, by decide, by decide, by decide⟩

/-! ### ACK processing (C3) -/

/-- An acceptable ack (`snd.una < ack ≤ snd.nxt` under wrapping order)
acknowledges at most the outstanding `snd.nxt - snd.una` octets. -/
theorem ack_trim_le (una ack nxt : Nat)
    (h1 : seq_lt una ack = true) (h2 : seq_le ack nxt = true) :
    wsub32 ack una ≤ wsub32 nxt una := by
  simp [seq_lt, seq_le, seq_gt, wsub32, U32MOD] at h1 h2 ⊢
  omega

/-- **C3**: on an ACK segment for a socket that is not Closed, SynSent or
TimeWait: an acceptable ack (`snd.una < ack ≤ snd.nxt`) trims exactly
`(ack - snd.una) mod 2^32` octets from the head of the retransmit queue,
sets `snd.una := ack`, and cancels the retransmit timer exactly when the
queue empties; otherwise the retransmit queue and `snd.una` are left
unchanged.  The hypothesis `hinv` is the spec's socket invariant that the
retransmit queue holds the `snd.nxt - snd.una` outstanding octets. -/
theorem C3_ack_advances_una (s : TCPSocketState) (pool : FragmentPool)
    (flags ack_num seq_num win : Nat)
    (hq1 : s.retransmit_queue.WF) (hq2 : s.retransmit_queue.SizedData)
    (hp : pool.Sized)
    (hinv : s.retransmit_queue.length = wsub32 s.send_next_seq s.send_unacked)
    (hack : flags &&& FLAG_ACK ≠ 0) (hest : s.is_established = true) :
    ((seq_lt s.send_unacked ack_num && seq_le ack_num s.send_next_seq) = true →
      ∀ r ∈ tcp_input_ack s pool flags ack_num seq_num win,
        r.1.retransmit_queue.length =
            s.retransmit_queue.length - wsub32 ack_num s.send_unacked ∧
          r.1.retransmit_queue.contents =
            s.retransmit_queue.contents.drop
              (wsub32 ack_num s.send_unacked) ∧
          r.1.send_unacked = ack_num ∧
          (r.1.retransmit_queue.length = 0 →
            r.1.retransmit_timer_id = -1) ∧
          (r.1.retransmit_queue.length ≠ 0 →
            r.1.retransmit_timer_id = s.retransmit_timer_id)) ∧
      ((seq_lt s.send_unacked ack_num && seq_le ack_num s.send_next_seq)
          = false →
        ∀ r ∈ tcp_input_ack s pool flags ack_num seq_num win,
          r.1.retransmit_queue = s.retransmit_queue ∧
            r.1.send_unacked = s.send_unacked) ∧
      (tcp_input_ack s pool flags ack_num seq_num win).isSome = true := by
  have hcond : (decide (flags &&& FLAG_ACK ≠ 0) && s.is_established) = true := by
    simp [hack, hest]
  by_cases hc : (seq_lt s.send_unacked ack_num &&
      seq_le ack_num s.send_next_seq) = true
  · have hsplit : seq_lt s.send_unacked ack_num = true ∧
        seq_le ack_num s.send_next_seq = true := by
      have hc2 := hc
      rw [Bool.and_eq_true] at hc2
      exact hc2
    have htle : wsub32 ack_num s.send_unacked ≤ s.retransmit_queue.length := by
      rw [hinv]
      exact ack_trim_le s.send_unacked ack_num s.send_next_seq
        hsplit.1 hsplit.2
    obtain ⟨out, heq, c1, c2, c3, c4, c5⟩ :=
      trim_head_spec s.retransmit_queue (wsub32 ack_num s.send_unacked)
        pool hq1 hq2 hp htle
    have hred : tcp_input_ack s pool flags ack_num seq_num win =
        (if out.1.is_empty then
          (fun s1 => if seq_le s1.send_unacked ack_num &&
              seq_le ack_num s1.send_next_seq &&
              (seq_lt s1.send_last_win_seq seq_num ||
                (decide (s1.send_last_win_seq = seq_num) &&
                  seq_le s1.send_last_win_ack ack_num)) then
            some ({ s1 with
                send_window := win % 65536,
                send_last_win_seq := seq_num,
                send_last_win_ack := ack_num }, out.2)
          else some (s1, out.2))
          { s with
            retransmit_queue := out.1,
            retransmit_timer_id := -1,
            send_unacked := ack_num }
        else
          (fun s1 => if seq_le s1.send_unacked ack_num &&
              seq_le ack_num s1.send_next_seq &&
              (seq_lt s1.send_last_win_seq seq_num ||
                (decide (s1.send_last_win_seq = seq_num) &&
                  seq_le s1.send_last_win_ack ack_num)) then
            some ({ s1 with
                send_window := win % 65536,
                send_last_win_seq := seq_num,
                send_last_win_ack := ack_num }, out.2)
          else some (s1, out.2))
          { s with
            retransmit_queue := out.1,
            send_unacked := ack_num }) := by
      simp only [tcp_input_ack, hcond, hc, if_true, heq]
      rcases hemp : out.1.is_empty with _ | _ <;>
        · simp only [hemp, Bool.false_eq_true, if_false, if_true]
          try rfl
    have hmain : ∀ r ∈ tcp_input_ack s pool flags ack_num seq_num win,
        r.1.retransmit_queue = out.1 ∧ r.1.send_unacked = ack_num ∧
          (out.1.is_empty = true → r.1.retransmit_timer_id = -1) ∧
          (out.1.is_empty = false →
            r.1.retransmit_timer_id = s.retransmit_timer_id) := by
      intro r hr
      rw [hred] at hr
      rcases hemp : out.1.is_empty with _ | _
      · rw [hemp] at hr
        simp only [Bool.false_eq_true, if_false] at hr
        split at hr <;>
          (rw [Option.mem_def] at hr
           rcases Option.some.inj hr with rfl
           exact ⟨rfl, rfl, by intro hx; exact absurd hx (by simp), fun hx => rfl⟩)
      · rw [hemp] at hr
        simp only [if_true] at hr
        split at hr <;>
          (rw [Option.mem_def] at hr
           rcases Option.some.inj hr with rfl
           exact ⟨rfl, rfl, fun hx => rfl,
             by intro hx; exact absurd hx (by simp)⟩)
    have hsome : (tcp_input_ack s pool flags ack_num seq_num win).isSome
        = true := by
      rw [hred]
      rcases hemp : out.1.is_empty with _ | _ <;> [skip; skip] <;>
        simp only [Bool.false_eq_true, if_false, if_true] <;>
        split <;> rfl
    refine ⟨?_, ?_, hsome⟩
    · intro hc2 r hr
      obtain ⟨e1, e2, e3, e4⟩ := hmain r hr
      have hempiff : out.1.is_empty = true ↔ out.1.length = 0 := by
        simp [NetBuffer.is_empty]
      refine ⟨by rw [e1, c4], by rw [e1, c5], e2, ?_, ?_⟩
      · intro hz
        exact e3 (hempiff.2 (by rw [← e1]; exact hz))
      · intro hz
        apply e4
        rcases hv : out.1.is_empty with _ | _
        · rfl
        · exact absurd (by rw [e1]; exact hempiff.1 hv) hz
    · intro hc2
      rw [hc] at hc2
      exact absurd hc2 (by simp)
  · have hcf : (seq_lt s.send_unacked ack_num &&
        seq_le ack_num s.send_next_seq) = false := by
      rcases hv : (seq_lt s.send_unacked ack_num &&
        seq_le ack_num s.send_next_seq) with _ | _
      · rfl
      · exact absurd hv hc
    have hred : tcp_input_ack s pool flags ack_num seq_num win =
        (if seq_le s.send_unacked ack_num &&
            seq_le ack_num s.send_next_seq &&
            (seq_lt s.send_last_win_seq seq_num ||
              (decide (s.send_last_win_seq = seq_num) &&
                seq_le s.send_last_win_ack ack_num)) then
          some ({ s with
              send_window := win % 65536,
              send_last_win_seq := seq_num,
              send_last_win_ack := ack_num }, pool)
        else some (s, pool)) := by
      simp only [tcp_input_ack, hcond, hcf, if_true, Bool.false_eq_true,
        if_false]
    refine ⟨fun hc2 => absurd hc2 hc, ?_, ?_⟩
    · intro hc2 r hr
      rw [hred] at hr
      split at hr <;>
        (rw [Option.mem_def] at hr
         rcases Option.some.inj hr with rfl
         exact ⟨rfl, rfl⟩)
    · rw [hred]
      split <;> rfl

/-! ### Reassembler partition lemmas (C1) -/

theorem withOffsets_length (off : Nat) (xs : List (List Nat)) :
    (withOffsets off xs).length = xs.length := by
  induction xs generalizing off with
  | nil => rfl
  | cons p ps ih => simp [withOffsets, ih]

theorem mem_withOffsets (off : Nat) (xs : List (List Nat))
    (e : Nat × List Nat) (he : e ∈ withOffsets off xs) :
    off ≤ e.1 ∧ e.1 + e.2.length ≤ off + xs.flatten.length ∧ e.2 ∈ xs := by
  induction xs generalizing off with
  | nil => exact absurd he (by simp [withOffsets])
  | cons p ps ih =>
    simp only [withOffsets, List.mem_cons] at he
    rcases he with rfl | he2
    · refine ⟨Nat.le_refl _, ?_, by simp⟩
      simp only [List.flatten_cons, List.length_append]
      omega
    · obtain ⟨h1, h2, h3⟩ := ih (off + p.length) he2
      refine ⟨by omega, ?_, by simp [h3]⟩
      simp only [List.flatten_cons, List.length_append]
      omega

theorem mem_withOffsets_head (off : Nat) (p : List Nat)
    (ps : List (List Nat)) (hp : p ≠ []) (e : Nat × List Nat)
    (he : e ∈ withOffsets off (p :: ps)) (hoff : e.1 = off) :
    e = (off, p) := by
  simp only [withOffsets, List.mem_cons] at he
  rcases he with rfl | he2
  · rw [← hoff]
  · exfalso
    have := (mem_withOffsets (off + p.length) ps e he2).1
    have hp1 : 1 ≤ p.length := by
      rcases p with _ | ⟨x, xs⟩
      · exact absurd rfl hp
      · simp
    omega

theorem withOffsets_take_drop (off : Nat) (xs : List (List Nat)) (j : Nat) :
    withOffsets off xs =
      withOffsets off (xs.take j) ++
        withOffsets (off + (xs.take j).flatten.length) (xs.drop j) := by
  induction xs generalizing off j with
  | nil => simp [withOffsets]
  | cons p ps ih =>
    match j with
    | 0 => simp [withOffsets]
    | j + 1 =>
      simp only [List.take_succ_cons, List.drop_succ_cons, withOffsets,
        List.flatten_cons, List.length_append, List.cons_append]
      rw [ih (off + p.length) j]
      have harith : off + p.length + (ps.take j).flatten.length =
          off + (p.length + (ps.take j).flatten.length) := by omega
      rw [harith]

/-- Sequence-number encodings of distinct offsets up to `2^31 + 1` are
distinct. -/
theorem encSeq_inj (base x y : Nat) (hx : x ≤ 2147483649)
    (hy : y ≤ 2147483649)
    (h : (base + x) % U32MOD = (base + y) % U32MOD) : x = y := by
  simp only [U32MOD] at h
  omega

/-- The arriving in-order packet is never "greater" (wrapping) than an
entry at an equal or later offset, when all offsets stay within `2^31`
of each other. -/
theorem seq_gt_enc_false (base s0 oe : Nat) (h1 : s0 ≤ oe)
    (h2 : oe ≤ 2147483648) :
    seq_gt ((base + s0) % U32MOD) ((base + oe) % U32MOD) = false := by
  simp [seq_gt, wsub32, U32MOD]
  omega

theorem wadd32_enc (c L : Nat) :
    wadd32 (c % U32MOD) L = (c + L) % U32MOD := by
  simp only [wadd32, U32MOD]
  omega

/-- Removing the scanned entry from the out-of-order list removes exactly
its abstraction from the multiset. -/
theorem eraseIdx_map_multiset (l : List (Nat × NetBuffer)) (i : Nat)
    (hi : i < l.length) :
    (↑(l.map segAbs) : Multiset (Nat × List Nat)) =
      segAbs (l.get ⟨i, hi⟩) ::ₘ ↑((l.eraseIdx i).map segAbs) := by
  have hperm : List.Perm l (l.get ⟨i, hi⟩ :: l.eraseIdx i) := by
    conv_lhs => rw [← List.take_append_drop i l]
    rw [List.eraseIdx_eq_take_drop_succ]
    have hdrop : l.drop i = l.get ⟨i, hi⟩ :: l.drop (i + 1) := by
      rw [List.drop_eq_getElem_cons hi]
      simp [List.get_eq_getElem]
    rw [hdrop]
    exact List.perm_middle
  have hmap := hperm.map segAbs
  calc (↑(l.map segAbs) : Multiset (Nat × List Nat))
      = ↑((l.get ⟨i, hi⟩ :: l.eraseIdx i).map segAbs) :=
        Multiset.coe_eq_coe.2 hmap
    _ = segAbs (l.get ⟨i, hi⟩) ::ₘ ↑((l.eraseIdx i).map segAbs) := by
        simp

set_option maxRecDepth 16384 in
/-- Witness for C3 on `sampleSocket` with an acceptable ack (1050). -/
theorem C3_ack_advances_una_witness :
    (sampleSocket.retransmit_queue.WF ∧
      sampleSocket.retransmit_queue.SizedData ∧
      FragmentPool.Sized [] ∧
      sampleSocket.retransmit_queue.length =
        wsub32 sampleSocket.send_next_seq sampleSocket.send_unacked ∧
      (16 : Nat) &&& FLAG_ACK ≠ 0 ∧
      sampleSocket.is_established = true) ∧
      (((seq_lt sampleSocket.send_unacked 1050 &&
          seq_le 1050 sampleSocket.send_next_seq) = true →
        ∀ r ∈ tcp_input_ack sampleSocket [] 16 1050 500 8000,
          r.1.retransmit_queue.length =
              sampleSocket.retransmit_queue.length -
                wsub32 1050 sampleSocket.send_unacked ∧
            r.1.retransmit_queue.contents =
              sampleSocket.retransmit_queue.contents.drop
                (wsub32 1050 sampleSocket.send_unacked) ∧
            r.1.send_unacked = 1050 ∧
            (r.1.retransmit_queue.length = 0 →
              r.1.retransmit_timer_id = -1) ∧
            (r.1.retransmit_queue.length ≠ 0 →
              r.1.retransmit_timer_id = sampleSocket.retransmit_timer_id)) ∧
        ((seq_lt sampleSocket.send_unacked 1050 &&
            seq_le 1050 sampleSocket.send_next_seq) = false →
          ∀ r ∈ tcp_input_ack sampleSocket [] 16 1050 500 8000,
            r.1.retransmit_queue = sampleSocket.retransmit_queue ∧
              r.1.send_unacked = sampleSocket.send_unacked) ∧
        (tcp_input_ack sampleSocket [] 16 1050 500 8000).isSome = true) :=
  ⟨⟨by decide, by decide, by decide, by decide, by decide, by decide⟩,
    C3_ack_advances_una sampleSocket [] 16 1050 500 8000 (by decide)
      (by decide) (by decide) (by decide) (by decide) (by decide)⟩

/-- In a forward cover starting at `off`, the only entry whose sequence
number matches `(base + off) mod 2^32` is the head segment. -/
theorem cover_head_entry (base N off : Nat) (hbase : base < U32MOD)
    (hN : N ≤ 2147483649) (rem : List (List Nat))
    (hnep : ∀ p ∈ rem, p ≠ [])
    (hrange : off + rem.flatten.length ≤ N)
    (x : Nat × List Nat)
    (hx : x ∈ (withOffsets off rem).map (encSeg base))
    (hx1 : x.1 = (base + off) % U32MOD) :
    ∃ p rem2, rem = p :: rem2 ∧ x = ((base + off) % U32MOD, p) := by
  rcases List.mem_map.1 hx with ⟨w, hw, hwx⟩
  rcases rem with _ | ⟨p, rem2⟩
  · exact absurd hw (by simp [withOffsets])
  · refine ⟨p, rem2, rfl, ?_⟩
    obtain ⟨hw1, hw2, hw3⟩ := mem_withOffsets off (p :: rem2) w hw
    have hwp1 : 1 ≤ w.2.length := by
      have hne2 := hnep w.2 hw3
      rcases hv : w.2 with _ | ⟨y, ys⟩
      · exact absurd hv hne2
      · simp
    have hele : (base + w.1) % U32MOD = (base + off) % U32MOD := by
      have h5 := congrArg Prod.fst hwx
      simp only [encSeg] at h5
      rw [h5, hx1]
    have hw1off : w.1 = off :=
      encSeq_inj base w.1 off (by omega) (by omega) hele
    have hhead := mem_withOffsets_head off p rem2 (hnep p (by simp)) w hw
      hw1off
    rw [← hwx, hhead]
    simp [encSeg, hw1off]

/-- Running the rescan loop on a state whose out-of-order entries all lie
inside the forward cover `withOffsets off rem` splices exactly a prefix
`rem.take j` of the cover onto the packet: no entry is ever discarded as
stale, the final `next_sequence` advances over that prefix, the spliced
octets follow the packet in order, and the surviving entries are the
cover minus the consumed prefix, none of them matching the new
`next_sequence`. -/
theorem reasmLoop_partition (base N s0 : Nat) (hbase : base < U32MOD)
    (hN : N ≤ 2147483649) (hs0 : s0 ≤ N)
    (next : Nat) (packet : NetBuffer) (l : List (Nat × NetBuffer)) (i : Nat)
    (off : Nat) (rem : List (List Nat))
    (hnext : next = (base + off) % U32MOD)
    (hoff : s0 ≤ off) (hrange : off + rem.flatten.length ≤ N)
    (hnep : ∀ p ∈ rem, p ≠ [])
    (hl : ∀ e ∈ l, e.2.WF ∧ e.2.SizedData)
    (hpw : packet.WF) (hps : packet.SizedData)
    (hcov : (↑(l.map segAbs) : Multiset (Nat × List Nat)) ≤
      ↑((withOffsets off rem).map (encSeg base)))
    (hpre : ∀ e ∈ l.take i, e.1 ≠ next) :
    ∃ j next2 pkt2 l2,
      reasmLoop ((base + s0) % U32MOD) next packet l i =
        (next2, pkt2, l2) ∧
      j ≤ rem.length ∧
      next2 = (base + (off + (rem.take j).flatten.length)) % U32MOD ∧
      pkt2.WF ∧ pkt2.SizedData ∧
      pkt2.contents = packet.contents ++ (rem.take j).flatten ∧
      (∀ e ∈ l2, e.2.WF ∧ e.2.SizedData) ∧
      (↑((withOffsets off (rem.take j)).map (encSeg base)) :
        Multiset (Nat × List Nat)) ≤ ↑(l.map segAbs) ∧
      (↑(l2.map segAbs) : Multiset (Nat × List Nat)) =
        ↑(l.map segAbs) -
          ↑((withOffsets off (rem.take j)).map (encSeg base)) ∧
      (∀ e ∈ l2, e.1 ≠ next2) := by
  revert hnext hoff hrange hnep hl hpw hps hcov hpre
  revert off rem
  induction next, packet, l, i using reasmLoop.induct ((base + s0) % U32MOD)
    with
  | case1 next packet l i h e hgt ih =>
    intro off rem hnext hoff hrange hnep hl hpw hps hcov hpre
    exfalso
    have hgt2 : seq_gt ((base + s0) % U32MOD) (l.get ⟨i, h⟩).1 = true := by
      simpa using hgt
    have hmem : segAbs (l.get ⟨i, h⟩) ∈
        (withOffsets off rem).map (encSeg base) := by
      have hin : segAbs (l.get ⟨i, h⟩) ∈ l.map segAbs :=
        List.mem_map_of_mem segAbs (l.get_mem i h)
      exact Multiset.mem_coe.1 (Multiset.mem_of_le hcov
        (Multiset.mem_coe.2 hin))
    rcases List.mem_map.1 hmem with ⟨w, hw, hwx⟩
    obtain ⟨hw1, hw2, hw3⟩ := mem_withOffsets off rem w hw
    have hwp1 : 1 ≤ w.2.length := by
      have hne2 := hnep w.2 hw3
      rcases hv : w.2 with _ | ⟨y, ys⟩
      · exact absurd hv hne2
      · simp
    have hseq : (l.get ⟨i, h⟩).1 = (base + w.1) % U32MOD := by
      have h5 := congrArg Prod.fst hwx
      simp only [encSeg, segAbs] at h5
      exact h5.symm
    have hfalse := seq_gt_enc_false base s0 w.1 (by omega) (by omega)
    rw [hseq, hfalse] at hgt2
    exact Bool.false_ne_true hgt2
  | case2 packet l i h e hgt ih =>
    intro off rem hnext hoff hrange hnep hl hpw hps hcov hpre
    have hgt2 : seq_gt ((base + s0) % U32MOD) (l.get ⟨i, h⟩).1 = false := by
      simpa using hgt
    have hmem : segAbs (l.get ⟨i, h⟩) ∈
        (withOffsets off rem).map (encSeg base) := by
      have hin : segAbs (l.get ⟨i, h⟩) ∈ l.map segAbs :=
        List.mem_map_of_mem segAbs (l.get_mem i h)
      exact Multiset.mem_coe.1 (Multiset.mem_of_le hcov
        (Multiset.mem_coe.2 hin))
    obtain ⟨p, rem2, hrem, hxval⟩ := cover_head_entry base N off hbase hN
      rem hnep hrange (segAbs (l.get ⟨i, h⟩)) hmem (by
        show (l.get ⟨i, h⟩).1 = (base + off) % U32MOD
        exact hnext)
    subst hrem
    have hgc : (l.get ⟨i, h⟩).2.contents = p := congrArg Prod.snd hxval
    have hgprops := hl (l.get ⟨i, h⟩) (l.get_mem i h)
    have hglen : (l.get ⟨i, h⟩).2.length = p.length := by
      rw [← contents_length (l.get ⟨i, h⟩).2 hgprops.1 hgprops.2, hgc]
    have hnext2 : wadd32 (l.get ⟨i, h⟩).1 (l.get ⟨i, h⟩).2.length =
        (base + (off + p.length)) % U32MOD := by
      rw [hglen, hnext, wadd32_enc]
      have : base + off + p.length = base + (off + p.length) := by omega
      rw [this]
    have hponly : p ≠ [] := hnep p (by simp)
    have habs := append_buffer_spec packet (l.get ⟨i, h⟩).2 hpw hgprops.1
    have hcovsplit : (↑(l.map segAbs) : Multiset (Nat × List Nat)) ≤
        encSeg base (off, p) ::ₘ
          ↑((withOffsets (off + p.length) rem2).map (encSeg base)) := by
      have : (withOffsets off (p :: rem2)).map (encSeg base) =
          encSeg base (off, p) ::
            (withOffsets (off + p.length) rem2).map (encSeg base) := rfl
      rw [this] at hcov
      exact hcov
    have herase : (↑(l.map segAbs) : Multiset (Nat × List Nat)) =
        segAbs (l.get ⟨i, h⟩) ::ₘ ↑((l.eraseIdx i).map segAbs) :=
      eraseIdx_map_multiset l i h
    have hxabs : segAbs (l.get ⟨i, h⟩) = encSeg base (off, p) := by
      rw [hxval]
      simp [encSeg]
    have hcov2 : (↑((l.eraseIdx i).map segAbs) :
        Multiset (Nat × List Nat)) ≤
        ↑((withOffsets (off + p.length) rem2).map (encSeg base)) := by
      have h2 := hcovsplit
      rw [herase, hxabs] at h2
      exact (Multiset.cons_le_cons_iff (encSeg base (off, p))).1 h2
    obtain ⟨j, next2, pkt2, l2, heq2, hj2, hn2, hw2, hs2, hc2, he2, hle2,
        hmeq2, hne2⟩ :=
      ih (off + p.length) rem2 hnext2 (by omega)
        (by
          have : (p :: rem2).flatten.length =
              p.length + rem2.flatten.length := by simp
          omega)
        (fun q hq => hnep q (by simp [hq]))
        (fun g hg => hl g (List.mem_of_mem_eraseIdx hg))
        habs.1 (habs.2.1 hps hgprops.2) hcov2 (by simp)
    rw [reasmLoop_splice ((base + s0) % U32MOD) e.1 packet l i h hgt2 rfl]
    refine ⟨j + 1, next2, pkt2, l2, heq2, by simpa using hj2, ?_, hw2, hs2,
      ?_, he2, ?_, ?_, hne2⟩
    · rw [hn2]
      have : off + p.length + (rem2.take j).flatten.length =
          off + (p :: rem2.take j).flatten.length := by
        simp
        omega
      rw [this]
      simp
    · rw [hc2, habs.2.2.1, hgc]
      simp
    · have hwcons : (withOffsets off ((p :: rem2).take (j + 1))).map
          (encSeg base) =
          encSeg base (off, p) ::
            (withOffsets (off + p.length) (rem2.take j)).map
              (encSeg base) := rfl
      rw [hwcons, herase, hxabs]
      exact Multiset.cons_le_cons _ hle2
    · have hwcons : (withOffsets off ((p :: rem2).take (j + 1))).map
          (encSeg base) =
          encSeg base (off, p) ::
            (withOffsets (off + p.length) (rem2.take j)).map
              (encSeg base) := rfl
      rw [hmeq2, hwcons, herase, hxabs]
      rw [show (↑(encSeg base (off, p) ::
          (withOffsets (off + p.length) (rem2.take j)).map (encSeg base)) :
          Multiset (Nat × List Nat)) =
          encSeg base (off, p) ::ₘ
            ↑((withOffsets (off + p.length) (rem2.take j)).map
              (encSeg base)) from rfl]
      rw [Multiset.sub_cons, Multiset.erase_cons_head]
  | case3 next packet l i h e hgt hne3 ih =>
    intro off rem hnext hoff hrange hnep hl hpw hps hcov hpre
    have hgt2 : seq_gt ((base + s0) % U32MOD) (l.get ⟨i, h⟩).1 = false := by
      simpa using hgt
    have hne4 : (l.get ⟨i, h⟩).1 ≠ next := hne3
    have hpre2 : ∀ x ∈ l.take (i + 1), x.1 ≠ next := by
      intro x hx
      rw [List.take_succ] at hx
      rcases List.mem_append.1 hx with h1 | h2
      · exact hpre x h1
      · have hxe : x = l.get ⟨i, h⟩ := by
          have hg : l[i]? = some l[i] := List.getElem?_eq_getElem h
          rw [hg] at h2
          simpa [List.get_eq_getElem] using h2
        subst hxe
        exact hne4
    obtain ⟨j, next2, pkt2, l2, heq2, hj2, hn2, hw2, hs2, hc2, he2, hle2,
        hmeq2, hne2⟩ :=
      ih off rem hnext hoff hrange hnep hl hpw hps hcov hpre2
    rw [reasmLoop_skip ((base + s0) % U32MOD) next packet l i h hgt2 hne4]
    exact ⟨j, next2, pkt2, l2, heq2, hj2, hn2, hw2, hs2, hc2, he2, hle2,
      hmeq2, hne2⟩
  | case4 next packet l i h =>
    intro off rem hnext hoff hrange hnep hl hpw hps hcov hpre
    rw [reasmLoop_base ((base + s0) % U32MOD) next packet l i h]
    refine ⟨0, next, packet, l, rfl, by simp, by simpa using hnext, hpw,
      hps, by simp, hl, by simp [withOffsets], by simp [withOffsets], ?_⟩
    intro x hx
    exact hpre x (by rw [List.take_of_length_le (by omega)]; exact hx)

/-- Cancellation in multisets, specialised to avoid unfolding list
coercions. -/
theorem multiset_add_sub_cancel_left {α : Type} [DecidableEq α]
    (a b : Multiset α) : a + b - a = b := by
  simp

/-- Feeding the reassembler any interleaving of segments that exactly
covers `withOffsets off rem` (relative to stream base `base`) delivers
precisely the remaining octets in order and leaves `next_sequence` at the
end of the range, provided the whole range spans at most `2^31 + 1`
octets. -/
theorem feed_partition (base N : Nat) (hbase : base < U32MOD)
    (hN : N ≤ 2147483649) (inp : List (Nat × NetBuffer)) :
    ∀ (off : Nat) (rem : List (List Nat)) (st : TCPReassembler),
      off + rem.flatten.length = N →
      (∀ p ∈ rem, p ≠ []) →
      st.next_sequence = (base + off) % U32MOD →
      (∀ e ∈ st.out_of_order, e.2.WF ∧ e.2.SizedData) →
      (∀ e ∈ inp, e.2.WF ∧ e.2.SizedData) →
      ((↑(st.out_of_order.map segAbs) + ↑(inp.map segAbs) :
          Multiset (Nat × List Nat)) =
        ↑((withOffsets off rem).map (encSeg base))) →
      (∀ e ∈ st.out_of_order, e.1 ≠ st.next_sequence) →
      ((st.feed inp).1.map NetBuffer.contents).flatten = rem.flatten ∧
        (st.feed inp).2.next_sequence = (base + N) % U32MOD := by
  induction inp with
  | nil =>
    intro off rem st hsum hnep hnext hop hip hcov hno
    rcases rem with _ | ⟨p, rem2⟩
    · refine ⟨rfl, ?_⟩
      show st.next_sequence = _
      rw [hnext]
      have hoffN : off = N := by simpa using hsum
      rw [hoffN]
    · exfalso
      have hhead : encSeg base (off, p) ∈
          (↑((withOffsets off (p :: rem2)).map (encSeg base)) :
            Multiset (Nat × List Nat)) := by
        apply Multiset.mem_coe.2
        apply List.mem_map_of_mem
        simp [withOffsets]
      rw [← hcov] at hhead
      have hhead2 : encSeg base (off, p) ∈
          (↑(st.out_of_order.map segAbs) : Multiset (Nat × List Nat)) := by
        simpa using hhead
      rcases List.mem_map.1 (Multiset.mem_coe.1 hhead2) with ⟨g, hg, hgx⟩
      have hg1 : g.1 = st.next_sequence := by
        rw [hnext]
        have h5 := congrArg Prod.fst hgx
        simp only [segAbs, encSeg] at h5
        exact h5
      exact hno g hg hg1
  | cons hd rest ih =>
    obtain ⟨seq, pkt⟩ := hd
    intro off rem st hsum hnep hnext hop hip hcov hno
    have hpktprops := hip (seq, pkt) (by simp)
    have hx : segAbs (seq, pkt) ∈
        (withOffsets off rem).map (encSeg base) := by
      have h1 : segAbs (seq, pkt) ∈ ((seq, pkt) :: rest).map segAbs := by
        simp
      have h2 : segAbs (seq, pkt) ∈
          (↑(st.out_of_order.map segAbs) +
            ↑(((seq, pkt) :: rest).map segAbs) :
            Multiset (Nat × List Nat)) :=
        Multiset.mem_add.2 (Or.inr (Multiset.mem_coe.2 h1))
      rw [hcov] at h2
      exact Multiset.mem_coe.1 h2
    by_cases hseq : seq = st.next_sequence
    · have hxx : (segAbs (seq, pkt)).1 = (base + off) % U32MOD := by
        show seq = _
        rw [hseq, hnext]
      obtain ⟨p, rem2, hrem, hxval⟩ := cover_head_entry base N off hbase hN
        rem hnep (by omega) (segAbs (seq, pkt)) hx hxx
      subst hrem
      have hflatcons : (p :: rem2).flatten.length =
          p.length + rem2.flatten.length := by simp
      have hpc : pkt.contents = p := congrArg Prod.snd hxval
      have hseqval : seq = (base + off) % U32MOD := by
        have h5 := congrArg Prod.fst hxval
        simpa [segAbs] using h5
      have hplen : pkt.length = p.length := by
        rw [← contents_length pkt hpktprops.1 hpktprops.2, hpc]
      have hxabs : segAbs (seq, pkt) = encSeg base (off, p) := by
        rw [hxval]
        rfl
      have hW : (withOffsets off (p :: rem2)).map (encSeg base) =
          encSeg base (off, p) ::
            (withOffsets (off + p.length) rem2).map (encSeg base) := rfl
      have hcov2 : (↑(st.out_of_order.map segAbs) +
          ↑(rest.map segAbs) : Multiset (Nat × List Nat)) =
          ↑((withOffsets (off + p.length) rem2).map (encSeg base)) := by
        have h2 := hcov
        rw [hW] at h2
        have h3 : (↑(((seq, pkt) :: rest).map segAbs) :
            Multiset (Nat × List Nat)) =
            segAbs (seq, pkt) ::ₘ ↑(rest.map segAbs) := rfl
        have h4 : (↑((encSeg base (off, p) ::
            (withOffsets (off + p.length) rem2).map (encSeg base))) :
            Multiset (Nat × List Nat)) =
            encSeg base (off, p) ::ₘ
              ↑((withOffsets (off + p.length) rem2).map (encSeg base)) :=
          rfl
        rw [h3, hxabs, Multiset.add_cons, h4] at h2
        exact (Multiset.cons_inj_right _).1 h2
      have hcovle : (↑(st.out_of_order.map segAbs) :
          Multiset (Nat × List Nat)) ≤
          ↑((withOffsets (off + p.length) rem2).map (encSeg base)) := by
        rw [← hcov2]
        exact Multiset.le_add_right _ _
      have hnext1 : wadd32 st.next_sequence pkt.length =
          (base + (off + p.length)) % U32MOD := by
        rw [hnext, hplen, wadd32_enc]
        have hassoc : base + off + p.length = base + (off + p.length) := by
          omega
        rw [hassoc]
      obtain ⟨j, next2, pkt2, l2, heq, hj, hn2, hw2, hs2, hc2, he2, hle2,
          hmeq2, hne2⟩ :=
        reasmLoop_partition base N off hbase hN (by omega)
          (wadd32 st.next_sequence pkt.length) pkt st.out_of_order 0
          (off + p.length) rem2 hnext1 (Nat.le_add_right _ _)
          (by omega)
          (fun q hq => hnep q (by simp [hq]))
          hop hpktprops.1 hpktprops.2 hcovle (by simp)
      have hadd : st.add_packet pkt seq = (some pkt2, ⟨next2, l2⟩) := by
        simp only [TCPReassembler.add_packet, if_pos hseq]
        rw [show reasmLoop seq (wadd32 st.next_sequence pkt.length) pkt
            st.out_of_order 0 =
            reasmLoop ((base + off) % U32MOD)
              (wadd32 st.next_sequence pkt.length) pkt st.out_of_order 0
          from by rw [hseqval]]
        rw [heq]
      have hfeed : TCPReassembler.feed st ((seq, pkt) :: rest) =
          ((st.add_packet pkt seq).1.toList ++
            (((st.add_packet pkt seq).2).feed rest).1,
            (((st.add_packet pkt seq).2).feed rest).2) := rfl
      have hsplitflat : (rem2.take j).flatten ++ (rem2.drop j).flatten =
          rem2.flatten := by
        rw [← List.flatten_append, List.take_append_drop]
      have hsplitlen : (rem2.take j).flatten.length +
          (rem2.drop j).flatten.length = rem2.flatten.length := by
        have := congrArg List.length hsplitflat
        simpa using this
      have hcov3 : (↑(l2.map segAbs) + ↑(rest.map segAbs) :
          Multiset (Nat × List Nat)) =
          ↑((withOffsets (off + p.length + (rem2.take j).flatten.length)
            (rem2.drop j)).map (encSeg base)) := by
        rw [hmeq2, tsub_add_eq_add_tsub hle2, hcov2]
        have hWsplit : (withOffsets (off + p.length) rem2).map
            (encSeg base) =
            (withOffsets (off + p.length) (rem2.take j)).map (encSeg base)
              ++ (withOffsets
                (off + p.length + (rem2.take j).flatten.length)
                (rem2.drop j)).map (encSeg base) := by
          rw [withOffsets_take_drop (off + p.length) rem2 j,
            List.map_append]
        rw [hWsplit, ← Multiset.coe_add]
        exact multiset_add_sub_cancel_left _ _
      obtain ⟨ih1, ih2⟩ := ih
        (off + p.length + (rem2.take j).flatten.length) (rem2.drop j)
        ⟨next2, l2⟩ (by omega)
        (fun q hq => hnep q (by simp [List.mem_of_mem_drop hq]))
        hn2 he2 (fun q hq => hip q (by simp [hq])) hcov3
        (fun q hq => hne2 q hq)
      refine ⟨?_, ?_⟩
      · rw [hfeed, hadd]
        show ((pkt2 :: ((⟨next2, l2⟩ : TCPReassembler).feed rest).1).map
          NetBuffer.contents).flatten = _
        simp only [List.map_cons, List.flatten_cons]
        rw [ih1, hc2, hpc, List.append_assoc, hsplitflat]
      · rw [hfeed, hadd]
        exact ih2
    · have hadd : st.add_packet pkt seq =
          (none, { st with out_of_order :=
            st.out_of_order ++ [(seq, pkt)] }) := by
        simp only [TCPReassembler.add_packet, if_neg hseq]
      have hfeed : TCPReassembler.feed st ((seq, pkt) :: rest) =
          ((st.add_packet pkt seq).1.toList ++
            (((st.add_packet pkt seq).2).feed rest).1,
            (((st.add_packet pkt seq).2).feed rest).2) := rfl
      have halg : (↑((st.out_of_order ++ [(seq, pkt)]).map segAbs) +
          ↑(rest.map segAbs) : Multiset (Nat × List Nat)) =
          ↑(st.out_of_order.map segAbs) +
            ↑(((seq, pkt) :: rest).map segAbs) := by
        have h3 : (st.out_of_order ++ [(seq, pkt)]).map segAbs =
            st.out_of_order.map segAbs ++ [segAbs (seq, pkt)] := by
          simp
        rw [h3, ← Multiset.coe_add, add_assoc]
        congr 1
      obtain ⟨ih1, ih2⟩ := ih off rem
        { st with out_of_order := st.out_of_order ++ [(seq, pkt)] }
        hsum hnep hnext
        (by
          intro q hq
          rcases List.mem_append.1 hq with h1 | h2
          · exact hop q h1
          · rcases List.mem_singleton.1 h2 with rfl
            exact hpktprops)
        (fun q hq => hip q (by simp [hq]))
        (by rw [halg, hcov])
        (by
          intro q hq
          rcases List.mem_append.1 hq with h1 | h2
          · exact hno q h1
          · rcases List.mem_singleton.1 h2 with rfl
            exact hseq)
      refine ⟨?_, ?_⟩
      · rw [hfeed, hadd]
        simpa using ih1
      · rw [hfeed, hadd]
        exact ih2

/-- Flattening a replicated replicate gives one long replicate. -/
theorem flatten_replicate (n m a : Nat) :
    (List.replicate n (List.replicate m a)).flatten =
      List.replicate (n * m) a := by
  induction n with
  | zero => simp
  | succ k ih =>
    rw [List.replicate_succ, List.flatten_cons, ih,
      show (k + 1) * m = m + k * m from by ring, List.replicate_add]

set_option maxRecDepth 16384 in
/-- The `2^31`-octet middle buffer is structurally valid and reads back
as `2^31` zero octets. -/
theorem hugeC1Buf_facts : hugeC1Buf.WF ∧ hugeC1Buf.SizedData ∧
    hugeC1Buf.contents = List.replicate 2147483648 0 := by
  refine ⟨⟨?_, ?_⟩, ?_, ?_⟩
  · show (2147483648 : Nat) = hugeC1Buf.sumWindows
    show (2147483648 : Nat) =
      ((List.replicate 4194304
        (⟨0, 512, List.replicate 512 0⟩ : BufferFragment)).map
          BufferFragment.flen).sum
    rw [List.map_replicate, List.sum_replicate]
    norm_num [BufferFragment.flen]
  · intro f hf
    rcases List.eq_of_mem_replicate hf with rfl
    exact ⟨by norm_num [FRAGMENT_SIZE], by norm_num [FRAGMENT_SIZE]⟩
  · intro f hf
    rcases List.eq_of_mem_replicate hf with rfl
    show (List.replicate 512 0).length = FRAGMENT_SIZE
    simp [FRAGMENT_SIZE]
  · show ((List.replicate 4194304
        (⟨0, 512, List.replicate 512 0⟩ : BufferFragment)).map
          BufferFragment.window).flatten = _
    rw [List.map_replicate]
    rw [show (⟨0, 512, List.replicate 512 0⟩ :
        BufferFragment).window = List.replicate 512 0 from by
      simp [BufferFragment.window]]
    rw [flatten_replicate]

set_option maxRecDepth 16384 in
/-- **C1, counterexample**: the claim fails once the covered range exceeds
`2^31 + 1` octets, even though every hypothesis of the claim holds.  With
`base = 0` and the partition `[[7], 0^(2^31), [9]]` of the range
`[0, 2^31 + 2)`, delivering the last segment first parks it out of order;
the in-order arrival at 0 then discards it (`seq_gt 0 (2^31 + 1)` holds
under wrapping order, so the rescan loop treats the future segment as
stale).  The reassembler ends with `next_expected = 2^31 + 1` instead of
`2^31 + 2` and delivers only `2^31 + 1` of the `2^31 + 2` octets. -/
theorem C1_large_range_loses_data :
    (∀ e ∈ c1badInput, e.2.WF ∧ e.2.SizedData) ∧
      List.Perm (c1badInput.map segAbs) (coverSegments 0 c1badParts) ∧
      c1badParts.flatten.length = 2147483650 ∧
      (0 + c1badParts.flatten.length) % U32MOD = 2147483650 ∧
      ((TCPReassembler.new.set_next_expect 0).feed
          c1badInput).2.next_sequence = 2147483649 ∧
      ((((TCPReassembler.new.set_next_expect 0).feed c1badInput).1.map
        NetBuffer.contents).flatten).length = 2147483649 := by
  have hhuge := hugeC1Buf_facts
  have hc7 : oneBuf7.contents = [7] := by decide
  have hc9 : oneBuf9.contents = [9] := by decide
  have hlen : c1badParts.flatten.length = 2147483650 := by
    show ([7] ++ (List.replicate 2147483648 0 ++ ([9] ++ []))).length =
      2147483650
    rw [List.length_append, List.length_append, List.length_replicate]
    decide
  have hinit : TCPReassembler.new.set_next_expect 0 =
      (⟨0, []⟩ : TCPReassembler) := rfl
  have h1 : (⟨0, []⟩ : TCPReassembler).add_packet oneBuf9 2147483649 =
      (none, ⟨0, [(2147483649, oneBuf9)]⟩) := rfl
  have hl1 : reasmLoop 0 1 oneBuf7 [(2147483649, oneBuf9)] 0 =
      reasmLoop 0 1 oneBuf7 ([(2147483649, oneBuf9)].eraseIdx 0) 0 :=
    reasmLoop_stale 0 1 oneBuf7 [(2147483649, oneBuf9)] 0 (by decide)
      (by decide)
  have h20 : ([(2147483649, oneBuf9)] : List (Nat × NetBuffer)).eraseIdx 0
      = [] := rfl
  have hl2 : reasmLoop 0 1 oneBuf7 [] 0 = (1, oneBuf7, []) :=
    reasmLoop_base 0 1 oneBuf7 [] 0 (by decide)
  have h2 : (⟨0, [(2147483649, oneBuf9)]⟩ : TCPReassembler).add_packet
      oneBuf7 0 = (some oneBuf7, ⟨1, []⟩) := by
    have hstep : (⟨0, [(2147483649, oneBuf9)]⟩ :
        TCPReassembler).add_packet oneBuf7 0 =
        (some (reasmLoop 0 (wadd32 0 oneBuf7.length) oneBuf7
            [(2147483649, oneBuf9)] 0).2.1,
          ⟨(reasmLoop 0 (wadd32 0 oneBuf7.length) oneBuf7
            [(2147483649, oneBuf9)] 0).1,
          (reasmLoop 0 (wadd32 0 oneBuf7.length) oneBuf7
            [(2147483649, oneBuf9)] 0).2.2⟩) := rfl
    rw [hstep, show wadd32 0 oneBuf7.length = 1 from by decide, hl1, h20,
      hl2]
  have hl3 : reasmLoop 1 2147483649 hugeC1Buf [] 0 =
      (2147483649, hugeC1Buf, []) :=
    reasmLoop_base 1 2147483649 hugeC1Buf [] 0 (by decide)
  have h3 : (⟨1, []⟩ : TCPReassembler).add_packet hugeC1Buf 1 =
      (some hugeC1Buf, ⟨2147483649, []⟩) := by
    have hstep : (⟨1, []⟩ : TCPReassembler).add_packet hugeC1Buf 1 =
        (some (reasmLoop 1 (wadd32 1 hugeC1Buf.length) hugeC1Buf [] 0).2.1,
          ⟨(reasmLoop 1 (wadd32 1 hugeC1Buf.length) hugeC1Buf [] 0).1,
          (reasmLoop 1 (wadd32 1 hugeC1Buf.length) hugeC1Buf [] 0).2.2⟩) :=
      rfl
    rw [hstep, show wadd32 1 hugeC1Buf.length = 2147483649 from by decide,
      hl3]
  have hfeed : (⟨0, []⟩ : TCPReassembler).feed c1badInput =
      ([oneBuf7, hugeC1Buf], ⟨2147483649, []⟩) := by
    show TCPReassembler.feed ⟨0, []⟩
      ((2147483649, oneBuf9) :: (0, oneBuf7) :: (1, hugeC1Buf) :: []) = _
    simp only [TCPReassembler.feed, h1, h2, h3]
    rfl
  refine ⟨?_, ?_, hlen, ?_, ?_, ?_⟩
  · intro e he
    rcases List.mem_cons.1 he with rfl | he2
    · exact ⟨by decide, by decide⟩
    rcases List.mem_cons.1 he2 with rfl | he3
    · exact ⟨by decide, by decide⟩
    rcases List.mem_cons.1 he3 with rfl | he4
    · exact ⟨hhuge.1, hhuge.2.1⟩
    · exact absurd he4 (by simp)
  · have hmap : c1badInput.map segAbs =
        [(2147483649, [9]), (0, [7]),
          (1, List.replicate 2147483648 0)] := by
      show [(2147483649, oneBuf9.contents), (0, oneBuf7.contents),
        (1, hugeC1Buf.contents)] = _
      rw [hc9, hc7, hhuge.2.2]
    have hcoverGen : ∀ B : List Nat, B.length = 2147483648 →
        coverSegments 0 [[7], B, [9]] =
          [(0, [7]), (1, B), (2147483649, [9])] := by
      intro B hB
      show [((0 + 0) % U32MOD, [7]),
        ((0 + (0 + ([7] : List Nat).length)) % U32MOD, B),
        ((0 + (0 + ([7] : List Nat).length + B.length)) % U32MOD,
          [9])] = _
      rw [hB, show (([7] : List Nat)).length = 1 from rfl]
      have e1 : (0 + 0) % U32MOD = 0 := by norm_num [U32MOD]
      have e2 : (0 + (0 + 1)) % U32MOD = 1 := by norm_num [U32MOD]
      have e3 : (0 + (0 + 1 + 2147483648)) % U32MOD = 2147483649 := by
        norm_num [U32MOD]
      rw [e1, e2, e3]
    have hcover : coverSegments 0 c1badParts =
        [(0, [7]), (1, List.replicate 2147483648 0),
          (2147483649, [9])] :=
      hcoverGen (List.replicate 2147483648 0) (by
        rw [List.length_replicate])
    rw [hmap, hcover]
    exact (List.Perm.swap (0, [7]) (2147483649, [9])
        [(1, List.replicate 2147483648 0)]).trans
      (List.Perm.cons (0, [7])
        (List.Perm.swap (1, List.replicate 2147483648 0)
          (2147483649, [9]) []))
  · rw [hlen]
    norm_num [U32MOD]
  · rw [hinit, hfeed]
  · rw [hinit, hfeed]
    show (oneBuf7.contents ++ (hugeC1Buf.contents ++ [])).length =
      2147483649
    rw [hc7, hhuge.2.2, List.length_append, List.length_append,
      List.length_replicate]
    decide

/-- **C1, amended**: for every starting sequence number `base` (including
ranges that wrap the 32-bit sequence space) and every input stream whose
`(seq, payload)` segments are a permutation of a partition of
`[base, base + N)` into non-empty consecutive segments, with
`N ≤ 2^31 + 1`: feeding the stream to `add_packet` (with `next_expected`
initialised to `base`) emits buffers whose concatenation is exactly the
`N` source octets in order and leaves `next_expected = (base + N) mod
2^32`.  (The unrestricted claim is refuted by
`C1_large_range_loses_data`: for `N ≥ 2^31 + 2` a parked segment more
than `2^31` ahead of an in-order arrival is discarded as stale.) -/
theorem C1_reassembler_inorder_delivery (base : Nat)
    (parts : List (List Nat)) (inp : List (Nat × NetBuffer))
    (hbase : base < U32MOD)
    (hN : parts.flatten.length ≤ 2147483649)
    (hparts : ∀ p ∈ parts, p ≠ [])
    (hbufs : ∀ e ∈ inp, e.2.WF ∧ e.2.SizedData)
    (hperm : List.Perm (inp.map segAbs) (coverSegments base parts)) :
    (((TCPReassembler.new.set_next_expect base).feed inp).1.map
        NetBuffer.contents).flatten = parts.flatten ∧
      ((TCPReassembler.new.set_next_expect base).feed
        inp).2.next_sequence =
        (base + parts.flatten.length) % U32MOD := by
  exact feed_partition base parts.flatten.length hbase hN inp 0 parts
    (TCPReassembler.new.set_next_expect base)
    (by omega) hparts
    (by
      show base = (base + 0) % U32MOD
      simpa using (Nat.mod_eq_of_lt hbase).symm)
    (fun e he => absurd he (by
      simp [TCPReassembler.new, TCPReassembler.set_next_expect]))
    hbufs
    (by
      have h0 : ((TCPReassembler.new.set_next_expect
          base).out_of_order.map segAbs) = [] := rfl
      rw [h0]
      show ((0 : Multiset (Nat × List Nat)) + ↑(inp.map segAbs) :
        Multiset (Nat × List Nat)) = _
      rw [zero_add]
      exact Multiset.coe_eq_coe.2 hperm)
    (fun e he => absurd he (by
      simp [TCPReassembler.new, TCPReassembler.set_next_expect]))

set_option maxRecDepth 16384 in
/-- Witness for the amended C1 on a wrap-crossing two-segment cover of
`[2^32 - 1, 2^32 + 1)`, delivered out of order. -/
theorem C1_reassembler_inorder_delivery_witness :
    ((4294967295 : Nat) < U32MOD ∧
      ([[5], [6]] : List (List Nat)).flatten.length ≤ 2147483649 ∧
      (∀ p ∈ ([[5], [6]] : List (List Nat)), p ≠ []) ∧
      (∀ e ∈ c1goodInput, e.2.WF ∧ e.2.SizedData) ∧
      List.Perm (c1goodInput.map segAbs)
        (coverSegments 4294967295 [[5], [6]])) ∧
      ((((TCPReassembler.new.set_next_expect 4294967295).feed
          c1goodInput).1.map NetBuffer.contents).flatten =
        ([[5], [6]] : List (List Nat)).flatten ∧
        ((TCPReassembler.new.set_next_expect 4294967295).feed
          c1goodInput).2.next_sequence =
          (4294967295 + ([[5], [6]] : List (List Nat)).flatten.length) %
            U32MOD) :=
  ⟨⟨by decide, by decide, by decide, by decide, by decide⟩,
    C1_reassembler_inorder_delivery 4294967295 [[5], [6]] c1goodInput
      (by decide) (by decide) (by decide) (by decide) (by decide)⟩

end NetStack
